import Mathlib

/-!
Shallow embedding of the scheduling subsystem of the HYU-ELE3021 xv6 fork:
the stride meta-scheduler and MLFQ scheduler (`mlfq.c`) and the process /
thread table operations (`proc.c`).

Conventions of the embedding:
* Fixed-size C arrays become Lean `List`s; the table size `NPROC` is a
  parameter and well-formedness hypotheses fix the lengths.
* Pointers into the process table become `Nat` indices; the null pointer
  becomes `Option.none` (or `SEntry.empty` in the stride queue); the
  `MLFQ_PROC` sentinel `(struct proc*)-1` becomes `SEntry.mlfqProc`.
* `float` pass values are modelled as exact rationals `ℚ`; the claims under
  study concern comparisons and exact additive rescaling, which the
  rational model reflects faithfully.
* `uint` subtraction (`ctime - start`) is modelled as wrap-around
  arithmetic modulo 2^32 (`usub`).
* A kernel `panic` and a C function returning an error become `Option`:
  `none` is the panic / failure outcome, so failed operations leave the
  caller's state unchanged exactly as the early-`return` paths do.

The headers `param.h`, `mlfq.h` and `proc.h` are not part of the sources;
the tunable constants `NPROC`, `NTHREAD`, `MAXTICKET`, `MAXSTRIDE`,
`MAXPASS`, `SCALEPASS` declared there are taken as parameters, constrained
only as the specification constrains them (e.g. `MAXSTRIDE < MAXTICKET`).
-/

namespace Sched

/-- Modelled from the spec: thread states from `proc.h` (not in the
sources): "Thread state ∈ {UNUSED, EMBRYO, RUNNABLE, RUNNING, SLEEPING,
ZOMBIE}". -/
inductive TState where
  | UNUSED | EMBRYO | RUNNABLE | RUNNING | SLEEPING | ZOMBIE
deriving DecidableEq, Repr, Inhabited

/-- Modelled from the spec: process states from `proc.h` (not in the
sources): "Process state ∈ {UNUSED, EMBRYO, RUNNABLE, ZOMBIE}". -/
inductive PState where
  | UNUSED | EMBRYO | RUNNABLE | ZOMBIE
deriving DecidableEq, Repr, Inhabited

/-- A kernel thread slot (`struct thread` of `proc.h`); the saved context
and trap frame are machine state outside the model, the scheduling-relevant
fields are kept.  `chan` and `kstack` model the C pointers as addresses. -/
structure Thread where
  tid : Nat
  state : TState
  chan : Nat
  retval : Nat
  kstack : Nat
deriving DecidableEq, Repr, Inhabited

/-- The per-process scheduler-info record `p->mlfq` ({level, index,
elapsed, start}); `level = -1` marks a stride-scheduled process. -/
structure MlfqInfo where
  level : Int
  index : Nat
  elapsed : Nat
  start : Nat
deriving DecidableEq, Repr, Inhabited

/-- A process-table slot (`struct proc`).  Address space, open files and
name are outside the scheduling model; `parent` is a table index. -/
structure Proc where
  pid : Nat
  state : PState
  killed : Bool
  parent : Option Nat
  sz : Nat
  tidx : Nat
  threads : List Thread
  kstacks : List Nat
  ustacks : List Nat
  mlfq : MlfqInfo
deriving DecidableEq, Repr, Inhabited

/-- An entry of the stride queue: the null pointer, the MLFQ sentinel
`MLFQ_PROC = (struct proc*)-1`, or a pointer to a process (a table
index). -/
inductive SEntry where
  | empty
  | mlfqProc
  | proc (i : Nat)
deriving DecidableEq, Repr, Inhabited

/-- `struct stride` of `mlfq.h`: parallel arrays `pass`, `ticket`,
`queue` of size NPROC plus the running reserved total and the stride
quantum. -/
structure Stride where
  quantum : Nat
  total : Int
  pass : List ℚ
  ticket : List Int
  queue : List SEntry
deriving DecidableEq, Repr, Inhabited

/-- `runnable` (mlfq.c): scan `p->threads` and return the index of the
first RUNNABLE thread, or none (C: -1).  The helper carries the index of
the head of the remaining list. -/
def runnableFrom : List Thread → Nat → Option Nat
  | [], _ => none
  | t :: ts, i => if t.state = TState.RUNNABLE then some i else runnableFrom ts (i + 1)

/-- `runnable(struct proc*)` of mlfq.c. -/
def runnable (p : Proc) : Option Nat := runnableFrom p.threads 0

/-- The empty-slot scan of `stride_append`: first index holding a null
queue entry. -/
def scanEmpty : List SEntry → Nat → Option Nat
  | [], _ => none
  | e :: rest, i => if e = SEntry.empty then some i else scanEmpty rest (i + 1)

/-- `stride_init` (mlfq.c): slot 0 is the MLFQ aggregate holding all
MAXTICKET tickets at pass 0; every other slot is inactive
(`pass=-1, ticket=0, queue=null`). -/
def stride_init (n : Nat) (MAXTICKET : Int) : Stride :=
  { quantum := 5
    total := 0
    pass := (0 : ℚ) :: List.replicate (n - 1) (-1 : ℚ)
    ticket := MAXTICKET :: List.replicate (n - 1) 0
    queue := SEntry.mlfqProc :: List.replicate (n - 1) SEntry.empty }

/-- The minimum-pass scan of `stride_append`: fold the running minimum
`minpass` over the tail entries, skipping inactive slots (`pass = -1`). -/
def minpassFold (cur : ℚ) : List ℚ → ℚ
  | [] => cur
  | x :: xs => minpassFold (if x ≠ -1 ∧ cur > x then x else cur) xs

/-- `stride_append` (mlfq.c): admit process `pidx` with share `usage`.
Rejects (C: returns 0, mutating nothing) if the reserved total would
exceed MAXSTRIDE, the share is non-positive, or no queue slot is free.
On success moves `usage` tickets from slot 0 to the new slot and seeds its
pass with the running-minimum scan over the pre-call pass array; the C
code also sets `p->mlfq.level = -1` and `p->mlfq.index = idx`, returned
here as the chosen index for the caller to record. -/
def stride_append (MAXSTRIDE : Int) (s : Stride) (pidx : Nat) (usage : Int) :
    Option (Stride × Nat) :=
  if s.total + usage > MAXSTRIDE ∨ usage ≤ 0 then none
  else
    match scanEmpty s.queue 0 with
    | none => none
    | some idx =>
      let minpass := minpassFold (s.pass[0]!) (s.pass.drop 1)
      some
        ({ s with
            queue := s.queue.set idx (SEntry.proc pidx)
            total := s.total + usage
            ticket := (s.ticket.set 0 (s.ticket[0]! - usage)).set idx usage
            pass := s.pass.set idx minpass }, idx)

/-- `stride_delete` (mlfq.c): return slot `idx = p->mlfq.index`'s tickets
to slot 0 and invalidate the slot. -/
def stride_delete (s : Stride) (idx : Nat) : Stride :=
  let usage := s.ticket[idx]!
  { s with
      total := s.total - usage
      ticket := ((s.ticket.set 0 (s.ticket[0]! + usage)).set idx 0)
      pass := s.pass.set idx (-1)
      queue := s.queue.set idx SEntry.empty }

/-- `stride_update` (mlfq.c, part with rescale): increment slot `idx`'s
pass by `MAXTICKET / ticket[idx]` (float division, modelled in ℚ); if the
new pass exceeds MAXPASS, subtract `MAXPASS - SCALEPASS` from every slot
whose pass is strictly positive.  `idx` is 0 when called on `MLFQ_PROC`,
else `p->mlfq.index`.  The C function returns `MLFQ_NEXT` always. -/
def stride_update (MAXTICKET : Int) (MAXPASS SCALEPASS : ℚ) (s : Stride) (idx : Nat) :
    Stride :=
  let newpass := s.pass[idx]! + (MAXTICKET : ℚ) / (s.ticket[idx]! : ℚ)
  let pass1 := s.pass.set idx newpass
  if newpass > MAXPASS then
    { s with pass := pass1.map (fun x => if x > 0 then x - (MAXPASS - SCALEPASS) else x) }
  else
    { s with pass := pass1 }

/-- The selection loop of `stride_next` (mlfq.c): iterate slots
`i, i+1, ...` (`fuel` of them) carrying `(best, tidx)`; a slot replaces
the best exactly when its pass is active (`≠ -1`), strictly below the
current best's pass, and its queue entry has a runnable thread (whose
index is recorded). -/
def stride_next_go (pass : List ℚ) (queue : List SEntry) (pt : List Proc) :
    Nat → Nat → Nat × Option Nat → Nat × Option Nat
  | 0, _, acc => acc
  | fuel + 1, i, acc =>
    let acc' :=
      if pass[i]! ≠ -1 ∧ pass[acc.1]! > pass[i]! then
        match queue[i]! with
        | SEntry.proc pidx =>
          match runnable (pt[pidx]!) with
          | some idx => (i, some idx)
          | none => acc
        | _ => acc
      else acc
    stride_next_go pass queue pt fuel (i + 1) acc'

/-- `stride_next` (mlfq.c): scan slots 1..NPROC-1 against the initial best
slot 0 and return the winning slot index together with the recorded
runnable-thread index; the C function returns `this->queue[best]`. -/
def stride_next (n : Nat) (s : Stride) (pt : List Proc) : Nat × Option Nat :=
  stride_next_go s.pass s.queue pt (n - 1) 1 (0, none)

/-- NMLFQ: the number of MLFQ levels (K = 3, matching the three-entry
quantum/expire tables of `mlfq_init`). -/
def NMLFQ : Nat := 3

/-- The return code of `mlfq_update`: keep running the same process or
move to the next one. -/
inductive MResult where
  | NEXT | KEEP
deriving DecidableEq, Repr, Inhabited

/-- `struct mlfq` of `mlfq.h`: per-level quantum/expire tables and
fixed-size queues of process references, a per-level round-robin cursor
(`iterstate`, modelled as the slot index the C pointer designates), and
the stride meta-scheduler. -/
structure Mlfq where
  quantum : List Nat
  expire : List Nat
  queue : List (List (Option Nat))
  iterstate : List Nat
  metasched : Stride
deriving DecidableEq, Repr, Inhabited

/-- `mlfq_init` (mlfq.c): quantum {5,10,20}, expire {20,40,200}, empty
queues, cursors at slot 0, stride meta-scheduler initialised. -/
def mlfq_init (n : Nat) (MAXTICKET : Int) : Mlfq :=
  { quantum := [5, 10, 20]
    expire := [20, 40, 200]
    queue := List.replicate NMLFQ (List.replicate n (none : Option Nat))
    iterstate := List.replicate NMLFQ 0
    metasched := stride_init n MAXTICKET }

/-- The empty-slot scan of `mlfq_append` over one level's queue. -/
def scanFree : List (Option Nat) → Nat → Option Nat
  | [], _ => none
  | e :: rest, i => if e = none then some i else scanFree rest (i + 1)

/-- `mlfq_append` (mlfq.c): place process `pidx` in the first free slot
of `queue[level]` and record `(level, slot)` with `elapsed = 0` in the
process; `none` is the C return `MLFQ_FULL_QUEUE`. -/
def mlfq_append (m : Mlfq) (p : Proc) (pidx : Nat) (level : Nat) :
    Option (Mlfq × Proc) :=
  match scanFree (m.queue[level]!) 0 with
  | none => none
  | some j =>
    some
      ({ m with queue := m.queue.set level ((m.queue[level]!).set j (some pidx)) },
       { p with mlfq := { p.mlfq with level := (level : Int), index := j, elapsed := 0 } })

/-- 32-bit unsigned subtraction `a - b` as used on `uint` tick values
(4294967296 = 2^32). -/
def usub (a b : Nat) : Nat :=
  (a % 4294967296 + 4294967296 - b % 4294967296) % 4294967296

/-- `mlfq_update` (mlfq.c): post-slice policy decision for process `p`
(at table index `pidx`) at tick `ctime`.  ZOMBIE/killed processes report
NEXT untouched; stride participants (`level = -1`) delegate to
`stride_update`; otherwise the MLFQ aggregate's pass is updated, then the
process is demoted one level (elapsed reset, old slot cleared, NEXT) when
its elapsed time reached `expire[level]` and a lower level exists — a
full target queue is the C `panic`, modelled as `none` — else KEEP or
NEXT according to whether the slice `ctime - start` is still below
`quantum[level]`. -/
def mlfq_update (MAXTICKET : Int) (MAXPASS SCALEPASS : ℚ) (m : Mlfq) (p : Proc)
    (pidx : Nat) (ctime : Nat) : Option (Mlfq × Proc × MResult) :=
  let level := p.mlfq.level
  let index := p.mlfq.index
  if p.state = PState.ZOMBIE ∨ p.killed then some (m, p, MResult.NEXT)
  else if level = -1 then
    some ({ m with metasched := stride_update MAXTICKET MAXPASS SCALEPASS m.metasched index },
          p, MResult.NEXT)
  else
    let m1 := { m with metasched := stride_update MAXTICKET MAXPASS SCALEPASS m.metasched 0 }
    let L := level.toNat
    if L + 1 < NMLFQ ∧ p.mlfq.elapsed ≥ m1.expire[L]! then
      match mlfq_append m1 p pidx (L + 1) with
      | none => none
      | some (m2, p2) =>
        some ({ m2 with queue := m2.queue.set L ((m2.queue[L]!).set index none) },
              p2, MResult.NEXT)
    else if usub ctime p.mlfq.start < m1.quantum[L]! then
      some (m1, p, MResult.KEEP)
    else
      some (m1, p, MResult.NEXT)

/-- The circular scan of `mlfq_next` over one level: `fuel` many probes at
positions `(c + 1 + t) % n` for `t = t0, t0+1, ...`, where `c` is the
level's cursor; the C loop begins one past the cursor, wraps at the array
end, and stops after a full circle, which visits exactly these `n`
positions.  Returns `(pidx, thread index, position)` of the first entry
with a runnable thread. -/
def mlfq_scan_go (n : Nat) (q : List (Option Nat)) (pt : List Proc) (c : Nat) :
    Nat → Nat → Option (Nat × Nat × Nat)
  | 0, _ => none
  | fuel + 1, t =>
    let j := (c + 1 + t) % n
    match q[j]! with
    | none => mlfq_scan_go n q pt c fuel (t + 1)
    | some pidx =>
      match runnable (pt[pidx]!) with
      | some tv => some (pidx, tv, j)
      | none => mlfq_scan_go n q pt c fuel (t + 1)

/-- The level loop of `mlfq_next`: try levels `lvl, lvl+1, ...` in order,
returning `(level, position, pidx, thread index)` of the first hit. -/
def mlfq_next_go (n : Nat) (pt : List Proc) (queues : List (List (Option Nat)))
    (cursors : List Nat) : Nat → Nat → Option (Nat × Nat × Nat × Nat)
  | 0, _ => none
  | fuel + 1, lvl =>
    match mlfq_scan_go n (queues[lvl]!) pt (cursors[lvl]!) n 0 with
    | some (pidx, tv, j) => some (lvl, j, pidx, tv)
    | none => mlfq_next_go n pt queues cursors fuel (lvl + 1)

/-- `mlfq_next` (mlfq.c): scan level 0, then 1, then 2, each circularly
from its cursor; on a hit store the chosen position back into the level's
cursor and return the process with its runnable-thread index; return
`none` (C: null) when nothing is runnable. -/
def mlfq_next (n : Nat) (m : Mlfq) (pt : List Proc) : Option (Nat × Nat) × Mlfq :=
  match mlfq_next_go n pt m.queue m.iterstate NMLFQ 0 with
  | some (lvl, j, pidx, tv) => (some (pidx, tv), { m with iterstate := m.iterstate.set lvl j })
  | none => (none, m)

/-- `wakeup1` (proc.c): for every process in RUNNABLE state, set every
SLEEPING thread whose channel matches back to RUNNABLE.  `wakeup` is this
under the ptable lock, acting on no other state. -/
def wakeup1 (chan : Nat) (pt : List Proc) : List Proc :=
  pt.map fun p =>
    if p.state = PState.RUNNABLE then
      { p with
          threads := p.threads.map fun t =>
            if t.state = TState.SLEEPING ∧ t.chan = chan then
              { t with state := TState.RUNNABLE }
            else t }
    else p

/-- The scheduler-visible kernel state touched by `allocproc`/`fork`:
the process table, the MLFQ structure (holding the stride state), and the
pid/tid counters. -/
structure Kernel where
  ptable : List Proc
  mlfq : Mlfq
  nextpid : Nat
  nexttid : Nat
deriving DecidableEq, Repr, Inhabited

/-- The UNUSED-slot scan of `allocproc`. -/
def scanUnused : List Proc → Nat → Option Nat
  | [], _ => none
  | p :: ps, i => if p.state = PState.UNUSED then some i else scanUnused ps (i + 1)

/-- `allocproc` (proc.c).  Finds an UNUSED slot (else returns null);
marks process and thread 0 EMBRYO with fresh pid/tid; registers the
process in MLFQ level 0 (the C code ignores `mlfq_append`'s return
value); zeroes the stack pools; then allocates the kernel stack — the
outcome of `kalloc` is the parameter `kallocOk`, the allocated stack
address `newKstack`.  On `kalloc` failure the process and thread states
are set back to UNUSED and null is returned; trap-frame and context
carving inside the stack is memory layout outside the model. -/
def allocproc (NTHREAD : Nat) (k : Kernel) (kallocOk : Bool) (newKstack : Nat) :
    Option Nat × Kernel :=
  match scanUnused k.ptable 0 with
  | none => (none, k)
  | some i =>
    let p0 := k.ptable[i]!
    let t0 := p0.threads[0]!
    let p1 := { p0 with
        state := PState.EMBRYO
        pid := k.nextpid
        tidx := 0
        threads := p0.threads.set 0 { t0 with state := TState.EMBRYO, tid := k.nexttid } }
    let (m2, p2) :=
      match mlfq_append k.mlfq p1 i 0 with
      | some (m', p') => (m', p')
      | none => (k.mlfq, p1)
    let p3 := { p2 with
        kstacks := List.replicate NTHREAD 0
        ustacks := List.replicate NTHREAD 0 }
    match kallocOk with
    | true =>
      let p4 := { p3 with
          kstacks := (List.replicate NTHREAD 0).set 0 newKstack
          threads := p3.threads.set 0 { (p3.threads[0]!) with kstack := newKstack } }
      (some i,
       { k with ptable := k.ptable.set i p4, mlfq := m2,
                nextpid := k.nextpid + 1, nexttid := k.nexttid + 1 })
    | false =>
      let p4 := { p3 with
          state := PState.UNUSED
          threads := p3.threads.set 0 { (p3.threads[0]!) with state := TState.UNUSED } }
      (none,
       { k with ptable := k.ptable.set i p4, mlfq := m2,
                nextpid := k.nextpid + 1, nexttid := k.nexttid + 1 })

/-- Swap two entries of a list (`fork`'s user-stack swap). -/
def listSwap (l : List Nat) (a b : Nat) : List Nat :=
  let tmp := l[a]!
  (l.set a (l[b]!)).set b tmp

/-- `fork` (proc.c), scheduling-relevant part.  `callerIdx` is the table
index of `myproc()`; `copyOk` is the outcome of `copyuvm`.  On
`allocproc` failure returns -1.  On `copyuvm` failure frees the child's
kernel stack, rolls thread 0 and the process back to UNUSED, and returns
-1.  Otherwise copies size and user-stack pool (swapping the caller's
active stack slot with slot 0), sets the parent link, marks process and
thread 0 RUNNABLE, and returns the child pid.  Trap-frame bytes and
open-file duplication are outside the model. -/
def fork (NTHREAD : Nat) (k : Kernel) (callerIdx : Nat)
    (kallocOk copyOk : Bool) (newKstack : Nat) : Int × Kernel :=
  match allocproc NTHREAD k kallocOk newKstack with
  | (none, k1) => (-1, k1)
  | (some i, k1) =>
    let np := k1.ptable[i]!
    match copyOk with
    | true =>
      let cur := k1.ptable[callerIdx]!
      let np2 := { np with
          sz := cur.sz
          parent := some callerIdx
          tidx := 0
          ustacks := listSwap cur.ustacks 0 cur.tidx
          state := PState.RUNNABLE
          threads := np.threads.set 0 { (np.threads[0]!) with state := TState.RUNNABLE } }
      ((np.pid : Int), { k1 with ptable := k1.ptable.set i np2 })
    | false =>
      let np2 := { np with
          state := PState.UNUSED
          kstacks := np.kstacks.set 0 0
          threads := np.threads.set 0
            { (np.threads[0]!) with kstack := 0, state := TState.UNUSED } }
      (-1, { k1 with ptable := k1.ptable.set i np2 })

/-- The inner thread scan of `thread_join`: first thread slot whose `tid`
matches. -/
def tjFindThread : List Thread → Nat → Nat → Option Nat
  | [], _, _ => none
  | t :: ts, tid, j => if t.tid = tid then some j else tjFindThread ts tid (j + 1)

/-- The search loop of `thread_join` (proc.c): scan the process table in
order, descending into the threads of exactly those processes whose state
is RUNNABLE, and return the first `(process, thread)` pair whose thread
carries the requested tid. -/
def tjFind : List Proc → Nat → Nat → Option (Nat × Nat)
  | [], _, _ => none
  | p :: ps, tid, i =>
    if p.state = PState.RUNNABLE then
      match tjFindThread p.threads tid 0 with
      | some j => some (i, j)
      | none => tjFind ps tid (i + 1)
    else tjFind ps tid (i + 1)

/-- Outcome of one pass through `thread_join`'s body. -/
inductive JoinResult where
  /-- search failed: release the lock and return -1. -/
  | notfound
  /-- target found but not ZOMBIE yet: the caller sleeps on channel
  `tid` (blocking suspension, outside the pure model). -/
  | sleeps (i j : Nat)
  /-- target found ZOMBIE: its return value is copied out, the slot is
  released (kstack pointer, state, tid, retval cleared — the cached
  stacks in `p->kstacks`/`p->ustacks` are untouched), and 0 returned. -/
  | done (retval : Nat) (pt : List Proc)
deriving Repr

/-- `thread_join` (proc.c): locate the thread by tid via `tjFind`; -1
when absent; otherwise reap it if ZOMBIE, else sleep on channel tid. -/
def thread_join (pt : List Proc) (tid : Nat) : JoinResult :=
  match tjFind pt tid 0 with
  | none => JoinResult.notfound
  | some (i, j) =>
    let p := pt[i]!
    let t := p.threads[j]!
    if t.state = TState.ZOMBIE then
      let t2 : Thread := { t with kstack := 0, state := TState.UNUSED, tid := 0, retval := 0 }
      JoinResult.done t.retval (pt.set i { p with threads := p.threads.set j t2 })
    else JoinResult.sleeps i j

/-- `wakeup` (proc.c): `wakeup1` under the ptable lock; no other kernel
state is read or written. -/
def wakeup (chan : Nat) (k : Kernel) : Kernel :=
  { k with ptable := wakeup1 chan k.ptable }

/-- Stride slot `j` holds a process with at least one RUNNABLE thread
(so it is active — a non-null queue entry — and runnable). -/
def slotRunnable (queue : List SEntry) (pt : List Proc) (j : Nat) : Bool :=
  match queue[j]! with
  | SEntry.proc pidx => (runnable (pt[pidx]!)).isSome
  | _ => false

/-- The candidate set of `stride_next` per the specification: the MLFQ
aggregate slot 0 participates unconditionally, every other slot
participates when active and runnable. -/
def strideCand (queue : List SEntry) (pt : List Proc) (j : Nat) : Prop :=
  j = 0 ∨ slotRunnable queue pt j = true

/-- Slot `a` beats slot `b` in stride selection: strictly smaller pass,
or equal pass and not a larger index (ties break to the lower index). -/
def lexBetter (pass : List ℚ) (a b : Nat) : Prop :=
  pass[a]! < pass[b]! ∨ (pass[a]! = pass[b]! ∧ a ≤ b)

/-- Position `j` of an MLFQ level queue yields nothing: the slot is null
or its process has no RUNNABLE thread. -/
def scanMiss (q : List (Option Nat)) (pt : List Proc) (j : Nat) : Bool :=
  match q[j]! with
  | none => true
  | some pidx => (runnable (pt[pidx]!)).isNone

/-- The stride bookkeeping invariant established by `stride_init` and
maintained by `stride_append`/`stride_delete`: parallel arrays of length
`n`; tickets summing to MAXTICKET; `total` tracking the tickets reserved
by slots `i > 0`, bounded by MAXSTRIDE; slot 0 holding the MLFQ sentinel;
free slots holding zero tickets; participant slots holding non-negative
tickets. -/
def TicketInv (MAXTICKET MAXSTRIDE : Int) (n : Nat) (s : Stride) : Prop :=
  s.pass.length = n ∧ s.ticket.length = n ∧ s.queue.length = n ∧ 1 ≤ n ∧
  s.ticket.sum = MAXTICKET ∧ (s.ticket.drop 1).sum = s.total ∧
  s.total ≤ MAXSTRIDE ∧ 0 ≤ s.total ∧
  s.queue[0]! = SEntry.mlfqProc ∧
  (∀ i, 0 < i → i < n → s.queue[i]! = SEntry.empty → s.ticket[i]! = 0) ∧
  (∀ x ∈ s.ticket.drop 1, 0 ≤ x)

/-- The two ticket-conservation facts of the claim under study: the
tickets sum to MAXTICKET and the reserved (non-aggregate) tickets do not
exceed MAXSTRIDE. -/
def TicketSums (MAXTICKET MAXSTRIDE : Int) (s : Stride) : Prop :=
  s.ticket.sum = MAXTICKET ∧ (s.ticket.drop 1).sum ≤ MAXSTRIDE

/-- A concrete stride state with two active slots (passes 5 and 3) used
to witness the pass-seeding theorem. -/
def seedEx : Stride :=
  { quantum := 5, total := 10
    pass := [5, 3, -1, -1]
    ticket := [90, 10, 0, 0]
    queue := [SEntry.mlfqProc, SEntry.proc 1, SEntry.empty, SEntry.empty] }

/-- The state `seedEx` after admitting process 2 with 10 tickets: slot 2
is seeded with the minimum active pass, 3. -/
def seedEx2 : Stride :=
  { quantum := 5, total := 20
    pass := [5, 3, 3, -1]
    ticket := [80, 10, 10, 0]
    queue := [SEntry.mlfqProc, SEntry.proc 1, SEntry.proc 2, SEntry.empty] }

/-- The stride state after `stride_append (stride_init 4 100) 1 30`
(cap 80): used to witness the ticket-conservation theorem. -/
def consEx : Stride :=
  { quantum := 5, total := 30
    pass := [0, 0, -1, -1]
    ticket := [70, 30, 0, 0]
    queue := [SEntry.mlfqProc, SEntry.proc 1, SEntry.empty, SEntry.empty] }

/-- A reachable stride state (init with MAXTICKET = 100, admit one
participant with 1 ticket, service it twice with MAXPASS = 200,
SCALEPASS = 100): the participant's pass is 200 while the active MLFQ
slot 0 still has pass 0. -/
def rescEx : Stride :=
  { quantum := 5, total := 1
    pass := [0, 200, -1, -1]
    ticket := [99, 1, 0, 0]
    queue := [SEntry.mlfqProc, SEntry.proc 1, SEntry.empty, SEntry.empty] }

/-- A concrete kernel state for the wakeup witness: process 0 is RUNNABLE
with one thread SLEEPING on channel 5 and one on channel 6; process 1 is
ZOMBIE with a thread SLEEPING on channel 5. -/
def wakeEx : Kernel :=
  { ptable :=
      [{ (default : Proc) with
          state := PState.RUNNABLE,
          threads := [{ (default : Thread) with tid := 1, state := TState.SLEEPING, chan := 5 },
                      { (default : Thread) with tid := 2, state := TState.SLEEPING, chan := 6 }] },
       { (default : Proc) with
          state := PState.ZOMBIE,
          threads := [{ (default : Thread) with tid := 3, state := TState.SLEEPING, chan := 5 }] }]
    mlfq := mlfq_init 2 100
    nextpid := 4
    nexttid := 4 }

/-- A process table for the join witness: process 0 (a would-be caller)
is RUNNABLE; process 1 is RUNNABLE and owns the ZOMBIE thread with
tid 9; process 2 is ZOMBIE and owns a thread with tid 11. -/
def joinEx : List Proc :=
  [{ (default : Proc) with
      state := PState.RUNNABLE,
      threads := [{ (default : Thread) with tid := 4, state := TState.RUNNING }] },
   { (default : Proc) with
      state := PState.RUNNABLE,
      threads := [{ (default : Thread) with tid := 9, state := TState.ZOMBIE, retval := 77 }] },
   { (default : Proc) with
      state := PState.ZOMBIE,
      threads := [{ (default : Thread) with tid := 11, state := TState.ZOMBIE }] }]

/-- A stride state for the selection witness: slot 0 (MLFQ) at pass 5,
slot 1 (process 1) at pass 3, slot 2 (process 2) at pass 7, slot 3
free. -/
def nextEx : Stride :=
  { quantum := 5, total := 20
    pass := [5, 3, 7, -1]
    ticket := [80, 10, 10, 0]
    queue := [SEntry.mlfqProc, SEntry.proc 1, SEntry.proc 2, SEntry.empty] }

/-- The process table for the selection witness: processes 1 and 2 each
have a RUNNABLE thread. -/
def nextPt : List Proc :=
  [default,
   { (default : Proc) with threads := [{ (default : Thread) with tid := 1, state := TState.RUNNABLE }] },
   { (default : Proc) with threads := [{ (default : Thread) with tid := 2, state := TState.RUNNABLE }] }]

/-- An MLFQ state with process 1 sitting in level-0 slot 0, used to
witness the post-slice update theorem (n = 4). -/
def updEx : Mlfq :=
  { quantum := [5, 10, 20]
    expire := [20, 40, 200]
    queue := [[some 1, none, none, none],
              [none, none, none, none],
              [none, none, none, none]]
    iterstate := [0, 0, 0]
    metasched := stride_init 4 100 }

/-- A concrete kernel for the allocation-failure claims: two UNUSED
process slots with two thread slots each, empty MLFQ (n = 2). -/
def allocEx : Kernel :=
  { ptable := List.replicate 2
      { (default : Proc) with threads := List.replicate 2 (default : Thread) }
    mlfq := mlfq_init 2 100
    nextpid := 1
    nexttid := 1 }

/-! ### Helper lemmas -/

theorem scanEmpty_eq_none_iff (l : List SEntry) (i : Nat) :
    scanEmpty l i = none ↔ ∀ e ∈ l, e ≠ SEntry.empty := by
  induction l generalizing i with
  | nil => simp [scanEmpty]
  | cons a t ih =>
    simp only [scanEmpty]
    split
    · simp_all
    · simp_all [ih]

theorem scanEmpty_some (l : List SEntry) (i r : Nat) (h : scanEmpty l i = some r) :
    i ≤ r ∧ r - i < l.length ∧ l[r - i]! = SEntry.empty := by
  induction l generalizing i with
  | nil => simp [scanEmpty] at h
  | cons a t ih =>
    simp only [scanEmpty] at h
    split at h
    · cases h
      simp_all
    · obtain ⟨h1, h2, h3⟩ := ih (i + 1) h
      refine ⟨by omega, by simp; omega, ?_⟩
      have hri : r - i = (r - (i + 1)) + 1 := by omega
      rw [hri]
      rw [getElem!_pos _ _ (by simpa using Nat.succ_lt_succ h2)]
      rw [List.getElem_cons_succ]
      rw [getElem!_pos t (r - (i + 1)) h2] at h3
      exact h3

/-- C helper: `stride_append` fails exactly when the guard trips or the
queue scan finds no hole. -/
theorem stride_append_eq_none_iff (MAXSTRIDE : Int) (s : Stride) (pidx : Nat) (usage : Int) :
    stride_append MAXSTRIDE s pidx usage = none ↔
      ((s.total + usage > MAXSTRIDE ∨ usage ≤ 0) ∨ scanEmpty s.queue 0 = none) := by
  unfold stride_append
  split
  · simp_all
  · cases h : scanEmpty s.queue 0 <;> simp_all

/-- C3: `stride_append(p, usage)` fails (returning 0, the state untouched
as the failing paths mutate nothing — here: returns `none`) iff
`total + usage > MAXSTRIDE`, or `usage ≤ 0`, or no free slot exists; a
request reaching exactly MAXSTRIDE succeeds and one more ticket fails. -/
theorem stride_append_fail_iff (MAXSTRIDE : Int) (s : Stride) (pidx : Nat) (usage : Int) :
    (stride_append MAXSTRIDE s pidx usage = none ↔
      s.total + usage > MAXSTRIDE ∨ usage ≤ 0 ∨ ∀ e ∈ s.queue, e ≠ SEntry.empty) ∧
    (s.total + usage = MAXSTRIDE → 0 < usage → (∃ e ∈ s.queue, e = SEntry.empty) →
      (stride_append MAXSTRIDE s pidx usage).isSome = true) ∧
    (s.total + usage = MAXSTRIDE → stride_append MAXSTRIDE s pidx (usage + 1) = none) := by
  have hmain := stride_append_eq_none_iff MAXSTRIDE s pidx usage
  rw [scanEmpty_eq_none_iff] at hmain
  refine ⟨by rw [hmain]; tauto, ?_, ?_⟩
  · intro h1 h2 h3
    rw [Option.isSome_iff_ne_none]
    intro hnone
    rcases hmain.mp hnone with (h | h) | h
    · omega
    · omega
    · obtain ⟨e, he, he2⟩ := h3
      exact h e he he2
  · intro h1
    rw [stride_append_eq_none_iff]
    left; left; omega

/-- C3 witness: at the example of the spec's boundary test, reaching
MAXSTRIDE = 80 exactly succeeds, 81 fails. -/
theorem stride_append_fail_iff_witness :
    ((stride_init 4 100).total + 80 = 80 ∧ (0 : Int) < 80) ∧
    (stride_append 80 (stride_init 4 100) 1 80).isSome = true ∧
    stride_append 80 (stride_init 4 100) 1 81 = none :=
  ⟨⟨by decide, by decide⟩,
   (stride_append_fail_iff 80 (stride_init 4 100) 1 80).2.1 (by decide) (by decide)
     ⟨SEntry.empty, by decide⟩,
   (stride_append_fail_iff 80 (stride_init 4 100) 1 80).2.2 (by decide)⟩

theorem minpassFold_le_init (c : ℚ) (l : List ℚ) : minpassFold c l ≤ c := by
  induction l generalizing c with
  | nil => simp [minpassFold]
  | cons x xs ih =>
    simp only [minpassFold]
    split
    · exact le_trans (ih x) (by linarith [And.right (by assumption : x ≠ -1 ∧ c > x)])
    · exact ih c

theorem minpassFold_le_mem (c : ℚ) (l : List ℚ) :
    ∀ x ∈ l, x ≠ -1 → minpassFold c l ≤ x := by
  induction l generalizing c with
  | nil => simp
  | cons y ys ih =>
    intro x hx hne
    rcases List.mem_cons.mp hx with rfl | hx
    · simp only [minpassFold]
      split
      · exact minpassFold_le_init _ _
      · rename_i hcond
        have : ¬c > x := fun hgt => hcond ⟨hne, hgt⟩
        exact le_trans (minpassFold_le_init _ _) (by linarith)
    · simp only [minpassFold]
      split <;> exact ih _ x hx hne

theorem minpassFold_mem (c : ℚ) (l : List ℚ) :
    minpassFold c l = c ∨ (minpassFold c l ∈ l ∧ minpassFold c l ≠ -1) := by
  induction l generalizing c with
  | nil => simp [minpassFold]
  | cons x xs ih =>
    simp only [minpassFold]
    split
    · rename_i hcond
      rcases ih x with h | h
      · exact Or.inr ⟨by rw [h]; exact List.mem_cons_self _ _, by rw [h]; exact hcond.1⟩
      · exact Or.inr ⟨List.mem_cons_of_mem _ h.1, h.2⟩
    · rcases ih c with h | h
      · exact Or.inl h
      · exact Or.inr ⟨List.mem_cons_of_mem _ h.1, h.2⟩

/-- Successful `stride_append` destructured: the returned state and index
in terms of the scan results. -/
theorem stride_append_some (MAXSTRIDE : Int) (s : Stride) (pidx : Nat) (usage : Int)
    (s' : Stride) (idx : Nat)
    (hsucc : stride_append MAXSTRIDE s pidx usage = some (s', idx)) :
    ¬(s.total + usage > MAXSTRIDE ∨ usage ≤ 0) ∧
    scanEmpty s.queue 0 = some idx ∧
    s' = { s with
            queue := s.queue.set idx (SEntry.proc pidx)
            total := s.total + usage
            ticket := (s.ticket.set 0 (s.ticket[0]! - usage)).set idx usage
            pass := s.pass.set idx (minpassFold (s.pass[0]!) (s.pass.drop 1)) } := by
  unfold stride_append at hsucc
  split at hsucc
  · cases hsucc
  · rename_i hguard
    cases hscan : scanEmpty s.queue 0 with
    | none => rw [hscan] at hsucc; cases hsucc
    | some j =>
      rw [hscan] at hsucc
      simp only [Option.some.injEq, Prod.mk.injEq] at hsucc
      exact ⟨hguard, congrArg some hsucc.2, by rw [← hsucc.1, hsucc.2]⟩

/-- C4: on every successful `stride_append`, the admitted slot's pass is
the minimum pass over the slots active before the call: it is bounded by
`pass[0]` and by every occupied slot's pass, and it equals one of them. -/
theorem stride_append_seeds_minpass (MAXSTRIDE : Int) (s : Stride) (pidx : Nat) (usage : Int)
    (s' : Stride) (idx : Nat)
    (hlen : s.queue.length = s.pass.length)
    (hact : ∀ i, i < s.pass.length → 0 < i → (s.pass[i]! = -1 ↔ s.queue[i]! = SEntry.empty))
    (hsucc : stride_append MAXSTRIDE s pidx usage = some (s', idx)) :
    s'.pass[idx]! ≤ s.pass[0]! ∧
    (∀ i, i < s.pass.length → 0 < i → s.queue[i]! ≠ SEntry.empty → s'.pass[idx]! ≤ s.pass[i]!) ∧
    (s'.pass[idx]! = s.pass[0]! ∨
      ∃ i, 0 < i ∧ i < s.pass.length ∧ s.queue[i]! ≠ SEntry.empty ∧ s'.pass[idx]! = s.pass[i]!) := by
  obtain ⟨hguard, hscan, hs'⟩ := stride_append_some MAXSTRIDE s pidx usage s' idx hsucc
  obtain ⟨-, hidxq, -⟩ := scanEmpty_some s.queue 0 idx hscan
  simp only [Nat.sub_zero] at hidxq
  have hidxp : idx < s.pass.length := hlen ▸ hidxq
  have hval : s'.pass[idx]! = minpassFold (s.pass[0]!) (s.pass.drop 1) := by
    rw [hs']
    simp only
    rw [getElem!_pos _ idx (by simpa using hidxp), List.getElem_set_self]
  have hdrop : ∀ k, k + 1 < s.pass.length →
      (s.pass.drop 1)[k]! = s.pass[k + 1]! := by
    intro k hk
    have hk2 : k < (s.pass.drop 1).length := by simp; omega
    rw [getElem!_pos (s.pass.drop 1) k hk2, getElem!_pos s.pass (k + 1) hk,
      List.getElem_drop]
    congr 1
    omega
  refine ⟨?_, ?_, ?_⟩
  · rw [hval]; exact minpassFold_le_init _ _
  · intro i hi h0 hocc
    rw [hval]
    have hmem : s.pass[i]! ∈ s.pass.drop 1 := by
      obtain ⟨k, hk⟩ : ∃ k, i = k + 1 := ⟨i - 1, by omega⟩
      subst hk
      rw [← hdrop k hi]
      have hk2 : k < (s.pass.drop 1).length := by simp; omega
      rw [getElem!_pos (s.pass.drop 1) k hk2]
      exact List.getElem_mem _
    exact minpassFold_le_mem _ _ _ hmem (fun hm1 => hocc ((hact i hi h0).mp hm1))
  · rw [hval]
    rcases minpassFold_mem (s.pass[0]!) (s.pass.drop 1) with h | ⟨hmem, hne⟩
    · exact Or.inl h
    · right
      obtain ⟨k, hk, hkv⟩ := List.mem_iff_getElem.mp hmem
      have hkp : k + 1 < s.pass.length := by simp at hk; omega
      rw [← getElem!_pos (s.pass.drop 1) k hk] at hkv
      rw [hdrop k hkp] at hkv
      refine ⟨k + 1, Nat.succ_pos _, hkp, ?_, ?_⟩
      · intro hemp
        have hm1 : s.pass[k + 1]! = -1 := (hact (k + 1) hkp (Nat.succ_pos _)).mpr hemp
        exact hne (by rw [← hkv]; exact hm1)
      · exact hkv.symm

theorem getElem!_set_same {α : Type} [Inhabited α] (l : List α) (i : Nat) (x : α)
    (h : i < l.length) : (l.set i x)[i]! = x := by
  rw [getElem!_pos (l.set i x) i (by simpa using h), List.getElem_set_self]

theorem getElem!_set_other {α : Type} [Inhabited α] (l : List α) (i j : Nat) (x : α)
    (hij : i ≠ j) (hj : j < l.length) : (l.set i x)[j]! = l[j]! := by
  rw [getElem!_pos (l.set i x) j (by simpa using hj), getElem!_pos l j hj,
    List.getElem_set_ne hij]

theorem sum_set_int (l : List Int) (i : Nat) (x : Int) (h : i < l.length) :
    (l.set i x).sum = l.sum - l[i]! + x := by
  induction l generalizing i with
  | nil => simp at h
  | cons a t ih =>
    cases i with
    | zero =>
      rw [getElem!_pos (a :: t) 0 h, List.getElem_cons_zero]
      simp [List.sum_cons]
      omega
    | succ m =>
      have hm : m < t.length := by simpa using h
      rw [getElem!_pos (a :: t) (m + 1) h, List.getElem_cons_succ, ← getElem!_pos t m hm]
      simp only [List.set_cons_succ, List.sum_cons, ih m hm]
      omega

theorem drop_one_set_zero (l : List Int) (x : Int) : (l.set 0 x).drop 1 = l.drop 1 := by
  cases l <;> simp

theorem drop_one_set_succ (l : List Int) (i : Nat) (x : Int) :
    (l.set (i + 1) x).drop 1 = (l.drop 1).set i x := by
  cases l <;> simp

theorem drop_one_getElem! (l : List Int) (k : Nat) (h : k + 1 < l.length) :
    (l.drop 1)[k]! = l[k + 1]! := by
  have hk : k < (l.drop 1).length := by simp; omega
  rw [getElem!_pos (l.drop 1) k hk, getElem!_pos l (k + 1) h, List.getElem_drop]
  congr 1
  omega

/-- C5: the ticket-conservation invariants hold initially and are
preserved by `stride_append` and `stride_delete`: tickets always sum to
MAXTICKET and the reserved (slots `i > 0`) tickets never exceed
MAXSTRIDE. -/
theorem stride_ticket_conservation (MAXTICKET MAXSTRIDE : Int) (n : Nat)
    (hn : 1 ≤ n) (hms : 0 ≤ MAXSTRIDE) :
    (TicketInv MAXTICKET MAXSTRIDE n (stride_init n MAXTICKET) ∧
      TicketSums MAXTICKET MAXSTRIDE (stride_init n MAXTICKET)) ∧
    (∀ s pidx usage s' idx, TicketInv MAXTICKET MAXSTRIDE n s →
      stride_append MAXSTRIDE s pidx usage = some (s', idx) →
      TicketInv MAXTICKET MAXSTRIDE n s' ∧ TicketSums MAXTICKET MAXSTRIDE s') ∧
    (∀ s idx, TicketInv MAXTICKET MAXSTRIDE n s → 0 < idx → idx < n →
      TicketInv MAXTICKET MAXSTRIDE n (stride_delete s idx) ∧
      TicketSums MAXTICKET MAXSTRIDE (stride_delete s idx)) := by
  have sums_of_inv : ∀ s, TicketInv MAXTICKET MAXSTRIDE n s → TicketSums MAXTICKET MAXSTRIDE s := by
    intro s hs
    obtain ⟨-, -, -, -, h5, h6, h7, -⟩ := hs
    exact ⟨h5, by rw [h6]; exact h7⟩
  have hinit : TicketInv MAXTICKET MAXSTRIDE n (stride_init n MAXTICKET) := by
    unfold TicketInv stride_init
    refine ⟨by simp; omega, by simp; omega, by simp; omega, hn, ?_, ?_, hms, le_refl 0, ?_, ?_, ?_⟩
    · simp [List.sum_replicate]
    · simp [List.sum_replicate]
    · rw [getElem!_pos _ 0 (by simp), List.getElem_cons_zero]
    · intro i h0 hi hq
      obtain ⟨m, rfl⟩ : ∃ m, i = m + 1 := ⟨i - 1, by omega⟩
      rw [getElem!_pos _ (m + 1) (by simp; omega), List.getElem_cons_succ,
        List.getElem_replicate]
    · intro x hx
      simp only [List.drop_succ_cons, List.drop_zero] at hx
      rw [List.eq_of_mem_replicate hx]
  refine ⟨⟨hinit, sums_of_inv _ hinit⟩, ?_, ?_⟩
  · intro s pidx usage s' idx hs hsucc
    obtain ⟨h1, h2, h3, h4, h5, h6, h7, h8, h9, h10, h11⟩ := hs
    obtain ⟨hguard, hscan, hs'⟩ := stride_append_some MAXSTRIDE s pidx usage s' idx hsucc
    push_neg at hguard
    obtain ⟨hcap, husage⟩ := hguard
    obtain ⟨-, hidxlt, hidxq⟩ := scanEmpty_some s.queue 0 idx hscan
    simp only [Nat.sub_zero] at hidxlt hidxq
    have hidxn : idx < n := h3 ▸ hidxlt
    have hidx0 : idx ≠ 0 := by
      intro h
      rw [h, h9] at hidxq
      cases hidxq
    obtain ⟨m, rfl⟩ : ∃ m, idx = m + 1 := ⟨idx - 1, by omega⟩
    have htidx : s.ticket[m + 1]! = 0 :=
      h10 (m + 1) (Nat.succ_pos m) hidxn hidxq
    have htlen : 0 < s.ticket.length := by omega
    have htidxlen : m + 1 < s.ticket.length := by omega
    have hA : (s.ticket.set 0 (s.ticket[0]! - usage)).sum = s.ticket.sum - usage := by
      rw [sum_set_int s.ticket 0 _ htlen]
      omega
    have hAidx : (s.ticket.set 0 (s.ticket[0]! - usage))[m + 1]! = 0 := by
      rw [getElem!_set_other s.ticket 0 (m + 1) _ (by omega) htidxlen]
      exact htidx
    have hsum' : s'.ticket.sum = MAXTICKET := by
      rw [hs']
      simp only
      rw [sum_set_int _ (m + 1) usage (by simpa using htidxlen), hAidx, hA, h5]
      omega
    have hdropsum' : (s'.ticket.drop 1).sum = s.total + usage := by
      rw [hs']
      simp only
      rw [drop_one_set_succ, drop_one_set_zero]
      rw [sum_set_int _ m usage (by simp; omega)]
      rw [drop_one_getElem! s.ticket m htidxlen, htidx, h6]
      omega
    have hinv' : TicketInv MAXTICKET MAXSTRIDE n s' := by
      refine ⟨?_, ?_, ?_, hn, hsum', ?_, ?_, ?_, ?_, ?_, ?_⟩
      · rw [hs']; simpa using h1
      · rw [hs']; simpa using h2
      · rw [hs']; simpa using h3
      · rw [hdropsum', hs']
      · rw [hs']; simpa using hcap
      · rw [hs']; simp only; omega
      · rw [hs']
        simp only
        rw [getElem!_set_other s.queue (m + 1) 0 _ (by omega) (by omega)]
        exact h9
      · intro i h0 hi hq
        rw [hs'] at hq
        simp only at hq
        by_cases him : i = m + 1
        · rw [him, getElem!_set_same s.queue (m + 1) _ (by omega)] at hq
          cases hq
        · rw [getElem!_set_other s.queue (m + 1) i _ (fun h => him h.symm) (by omega)] at hq
          rw [hs']
          simp only
          rw [getElem!_set_other _ (m + 1) i _ (fun h => him h.symm) (by simp; omega)]
          rw [getElem!_set_other s.ticket 0 i _ (by omega) (by omega)]
          exact h10 i h0 hi hq
      · intro x hx
        rw [hs'] at hx
        simp only at hx
        rw [drop_one_set_succ, drop_one_set_zero] at hx
        rcases List.mem_or_eq_of_mem_set hx with hx' | rfl
        · exact h11 x hx'
        · omega
    exact ⟨hinv', sums_of_inv _ hinv'⟩
  · intro s idx hs h0 hidxn
    obtain ⟨h1, h2, h3, h4, h5, h6, h7, h8, h9, h10, h11⟩ := hs
    obtain ⟨m, rfl⟩ : ∃ m, idx = m + 1 := ⟨idx - 1, by omega⟩
    have htlen : 0 < s.ticket.length := by omega
    have htidxlen : m + 1 < s.ticket.length := by omega
    have humem : s.ticket[m + 1]! ∈ s.ticket.drop 1 := by
      rw [← drop_one_getElem! s.ticket m htidxlen]
      rw [getElem!_pos (s.ticket.drop 1) m (by simp; omega)]
      exact List.getElem_mem _
    have hu0 : 0 ≤ s.ticket[m + 1]! := h11 _ humem
    have hA : (s.ticket.set 0 (s.ticket[0]! + s.ticket[m + 1]!)).sum =
        s.ticket.sum + s.ticket[m + 1]! := by
      rw [sum_set_int s.ticket 0 _ htlen]
      omega
    have hAidx : (s.ticket.set 0 (s.ticket[0]! + s.ticket[m + 1]!))[m + 1]! =
        s.ticket[m + 1]! :=
      getElem!_set_other s.ticket 0 (m + 1) _ (by omega) htidxlen
    have hsum' : (stride_delete s (m + 1)).ticket.sum = MAXTICKET := by
      unfold stride_delete
      simp only
      rw [sum_set_int _ (m + 1) 0 (by simpa using htidxlen), hAidx, hA, h5]
      omega
    have hdropeq : ((stride_delete s (m + 1)).ticket.drop 1) =
        (s.ticket.drop 1).set m 0 := by
      unfold stride_delete
      simp only
      rw [drop_one_set_succ, drop_one_set_zero]
    have hdropsum' : ((stride_delete s (m + 1)).ticket.drop 1).sum =
        s.total - s.ticket[m + 1]! := by
      rw [hdropeq, sum_set_int _ m 0 (by simp; omega)]
      rw [drop_one_getElem! s.ticket m htidxlen, h6]
      omega
    have htot' : (stride_delete s (m + 1)).total = s.total - s.ticket[m + 1]! := by
      unfold stride_delete
      simp only
    have hinv' : TicketInv MAXTICKET MAXSTRIDE n (stride_delete s (m + 1)) := by
      refine ⟨?_, ?_, ?_, hn, hsum', ?_, ?_, ?_, ?_, ?_, ?_⟩
      · unfold stride_delete; simpa using h1
      · unfold stride_delete; simpa using h2
      · unfold stride_delete; simpa using h3
      · rw [hdropsum', htot']
      · rw [htot']; omega
      · rw [htot']
        have : 0 ≤ (s.ticket.drop 1).sum - s.ticket[m + 1]! := by
          have : ((s.ticket.drop 1).set m 0).sum = (s.ticket.drop 1).sum - s.ticket[m + 1]! := by
            rw [sum_set_int _ m 0 (by simp; omega), drop_one_getElem! s.ticket m htidxlen]
            omega
          rw [← this]
          apply List.sum_nonneg
          intro x hx
          rcases List.mem_or_eq_of_mem_set hx with hx' | rfl
          · exact h11 x hx'
          · exact le_refl 0
        omega
      · unfold stride_delete
        simp only
        rw [getElem!_set_other s.queue (m + 1) 0 _ (by omega) (by omega)]
        exact h9
      · intro i hi0 hi hq
        unfold stride_delete at hq ⊢
        simp only at hq ⊢
        by_cases him : i = m + 1
        · rw [him, getElem!_set_same _ (m + 1) 0 (by simp; omega)]
        · rw [getElem!_set_other s.queue (m + 1) i _ (fun h => him h.symm) (by omega)] at hq
          rw [getElem!_set_other _ (m + 1) i 0 (fun h => him h.symm) (by simp; omega)]
          rw [getElem!_set_other s.ticket 0 i _ (by omega) (by omega)]
          exact h10 i hi0 hi hq
      · intro x hx
        rw [hdropeq] at hx
        rcases List.mem_or_eq_of_mem_set hx with hx' | rfl
        · exact h11 x hx'
        · exact le_refl 0
    exact ⟨hinv', sums_of_inv _ hinv'⟩

/-- C5 witness: with MAXTICKET = 100, MAXSTRIDE = 80, n = 4, the sums
hold after `stride_init`, after admitting 30 tickets, and after deleting
the participant again. -/
theorem stride_ticket_conservation_witness :
    ((1 : Nat) ≤ 4 ∧ (0 : Int) ≤ 80 ∧
      stride_append 80 (stride_init 4 100) 1 30 = some (consEx, 1)) ∧
    TicketSums 100 80 (stride_init 4 100) ∧
    TicketSums 100 80 consEx ∧ TicketSums 100 80 (stride_delete consEx 1) := by
  have thm := stride_ticket_conservation 100 80 4 (by decide) (by decide)
  have happ := thm.2.1 (stride_init 4 100) 1 30 consEx 1 thm.1.1 (by decide)
  have hdel := thm.2.2 consEx 1 happ.1 (by decide) (by decide)
  exact ⟨⟨by decide, by decide, by decide⟩, thm.1.2, happ.2, hdel.2⟩

theorem getElem!_map_q (f : ℚ → ℚ) (l : List ℚ) (i : Nat) (h : i < l.length) :
    (l.map f)[i]! = f (l[i]!) := by
  rw [getElem!_pos (l.map f) i (by simpa using h), getElem!_pos l i h, List.getElem_map]

/-- C7 counterexample: in the reachable state `rescEx` the pass update on
slot 1 (ticket 1) exceeds MAXPASS = 200 and triggers the rescale, which
reduces slot 1 by MAXPASS - SCALEPASS = 100 — but leaves the active slot
0, whose pass is 0 (not strictly positive), unreduced, so the pairwise
difference between slots 1 and 0 shrinks from 300 to 200.  This refutes
"every active slot's pass is reduced by exactly MAXPASS - SCALEPASS". -/
theorem stride_update_rescale_cex :
    rescEx = stride_update 100 200 100 (stride_update 100 200 100
      ((stride_append 80 (stride_init 4 100) 1 1).getD (stride_init 4 100, 0)).1 1) 1 ∧
    rescEx.queue[0]! ≠ SEntry.empty ∧
    rescEx.pass[1]! + (100 : ℚ) / ((rescEx.ticket[1]! : Int) : ℚ) > 200 ∧
    (stride_update 100 200 100 rescEx 1).pass[1]! =
      rescEx.pass[1]! + (100 : ℚ) / ((rescEx.ticket[1]! : Int) : ℚ) - (200 - 100) ∧
    (stride_update 100 200 100 rescEx 1).pass[0]! ≠ rescEx.pass[0]! - (200 - 100) := by
  have hS1 : ((stride_append 80 (stride_init 4 100) 1 1).getD (stride_init 4 100, 0)).1 =
      { quantum := 5, total := 1, pass := [0, 0, -1, -1], ticket := [99, 1, 0, 0],
        queue := [SEntry.mlfqProc, SEntry.proc 1, SEntry.empty, SEntry.empty] } := by decide
  refine ⟨?_, by decide, by norm_num [rescEx], ?_, ?_⟩
  · rw [hS1]
    norm_num [stride_update, rescEx]
  · norm_num [stride_update, rescEx]
  · norm_num [stride_update, rescEx]

/-- C7 amended: when the updated pass exceeds MAXPASS, every slot whose
post-increment pass is strictly positive is reduced by exactly
MAXPASS - SCALEPASS, every other slot (in particular an active slot whose
pass is ≤ 0, such as the MLFQ slot before it is first serviced) is left
unchanged; pairwise differences are preserved among the strictly positive
slots. -/
theorem stride_update_rescale_amended (MAXTICKET : Int) (MAXPASS SCALEPASS : ℚ)
    (s : Stride) (idx : Nat) (p1 : List ℚ)
    (hp1 : p1 = s.pass.set idx (s.pass[idx]! + (MAXTICKET : ℚ) / ((s.ticket[idx]! : Int) : ℚ)))
    (htrig : s.pass[idx]! + (MAXTICKET : ℚ) / ((s.ticket[idx]! : Int) : ℚ) > MAXPASS) :
    (∀ i, i < p1.length →
      (stride_update MAXTICKET MAXPASS SCALEPASS s idx).pass[i]! =
        if p1[i]! > 0 then p1[i]! - (MAXPASS - SCALEPASS) else p1[i]!) ∧
    (∀ i j, i < p1.length → j < p1.length → p1[i]! > 0 → p1[j]! > 0 →
      (stride_update MAXTICKET MAXPASS SCALEPASS s idx).pass[i]! -
        (stride_update MAXTICKET MAXPASS SCALEPASS s idx).pass[j]! = p1[i]! - p1[j]!) := by
  have hupd : (stride_update MAXTICKET MAXPASS SCALEPASS s idx).pass =
      p1.map (fun x => if x > 0 then x - (MAXPASS - SCALEPASS) else x) := by
    rw [hp1]
    simp only [stride_update]
    rw [if_pos htrig]
  have hpt : ∀ i, i < p1.length →
      (stride_update MAXTICKET MAXPASS SCALEPASS s idx).pass[i]! =
        if p1[i]! > 0 then p1[i]! - (MAXPASS - SCALEPASS) else p1[i]! := by
    intro i hi
    rw [hupd, getElem!_map_q _ _ i hi]
  refine ⟨hpt, ?_⟩
  intro i j hi hj hpi hpj
  rw [hpt i hi, hpt j hj, if_pos hpi, if_pos hpj]
  ring

/-- C7 witness for the amended statement: at `rescEx`, slot 1 (pass 300
after increment) is reduced to 200 while the difference to itself is
trivially preserved; slot 0 at pass 0 stays 0. -/
theorem stride_update_rescale_amended_witness :
    ([(0 : ℚ), 300, -1, -1] =
      rescEx.pass.set 1 (rescEx.pass[1]! + (100 : ℚ) / ((rescEx.ticket[1]! : Int) : ℚ)) ∧
     rescEx.pass[1]! + (100 : ℚ) / ((rescEx.ticket[1]! : Int) : ℚ) > 200) ∧
    (stride_update 100 200 100 rescEx 1).pass[1]! =
      (if ([(0 : ℚ), 300, -1, -1] : List ℚ)[1]! > 0
       then ([(0 : ℚ), 300, -1, -1] : List ℚ)[1]! - (200 - 100)
       else ([(0 : ℚ), 300, -1, -1] : List ℚ)[1]!) ∧
    (stride_update 100 200 100 rescEx 1).pass[0]! =
      (if ([(0 : ℚ), 300, -1, -1] : List ℚ)[0]! > 0
       then ([(0 : ℚ), 300, -1, -1] : List ℚ)[0]! - (200 - 100)
       else ([(0 : ℚ), 300, -1, -1] : List ℚ)[0]!) :=
  ⟨⟨by norm_num [rescEx], by norm_num [rescEx]⟩,
   (stride_update_rescale_amended 100 200 100 rescEx 1 [(0 : ℚ), 300, -1, -1]
     (by norm_num [rescEx]) (by norm_num [rescEx])).1 1 (by decide),
   (stride_update_rescale_amended 100 200 100 rescEx 1 [(0 : ℚ), 300, -1, -1]
     (by norm_num [rescEx]) (by norm_num [rescEx])).1 0 (by decide)⟩

theorem getElem!_map_gen {α β : Type} [Inhabited α] [Inhabited β] (f : α → β) (l : List α)
    (i : Nat) (h : i < l.length) : (l.map f)[i]! = f (l[i]!) := by
  rw [getElem!_pos (l.map f) i (by simpa using h), getElem!_pos l i h, List.getElem_map]

/-- C8: `wakeup(chan)` sets to RUNNABLE exactly the threads that are
SLEEPING with matching `chan` inside a RUNNABLE process; every other
thread keeps its state, all other thread and process fields are
untouched, and the scheduler state (MLFQ, stride, counters) is
untouched. -/
theorem wakeup_spec (chan : Nat) (k : Kernel) :
    (wakeup chan k).mlfq = k.mlfq ∧
    (wakeup chan k).nextpid = k.nextpid ∧
    (wakeup chan k).nexttid = k.nexttid ∧
    (wakeup chan k).ptable.length = k.ptable.length ∧
    (∀ i, i < k.ptable.length →
      ((wakeup chan k).ptable[i]!.state = k.ptable[i]!.state ∧
       (wakeup chan k).ptable[i]!.killed = k.ptable[i]!.killed ∧
       (wakeup chan k).ptable[i]!.pid = k.ptable[i]!.pid ∧
       (wakeup chan k).ptable[i]!.parent = k.ptable[i]!.parent ∧
       (wakeup chan k).ptable[i]!.sz = k.ptable[i]!.sz ∧
       (wakeup chan k).ptable[i]!.tidx = k.ptable[i]!.tidx ∧
       (wakeup chan k).ptable[i]!.kstacks = k.ptable[i]!.kstacks ∧
       (wakeup chan k).ptable[i]!.ustacks = k.ptable[i]!.ustacks ∧
       (wakeup chan k).ptable[i]!.mlfq = k.ptable[i]!.mlfq ∧
       (wakeup chan k).ptable[i]!.threads.length = k.ptable[i]!.threads.length) ∧
      (∀ j, j < k.ptable[i]!.threads.length →
        ((wakeup chan k).ptable[i]!.threads[j]!.state =
          (if k.ptable[i]!.state = PState.RUNNABLE ∧
              k.ptable[i]!.threads[j]!.state = TState.SLEEPING ∧
              k.ptable[i]!.threads[j]!.chan = chan
           then TState.RUNNABLE else k.ptable[i]!.threads[j]!.state)) ∧
        (wakeup chan k).ptable[i]!.threads[j]!.tid = k.ptable[i]!.threads[j]!.tid ∧
        (wakeup chan k).ptable[i]!.threads[j]!.chan = k.ptable[i]!.threads[j]!.chan ∧
        (wakeup chan k).ptable[i]!.threads[j]!.retval = k.ptable[i]!.threads[j]!.retval ∧
        (wakeup chan k).ptable[i]!.threads[j]!.kstack = k.ptable[i]!.threads[j]!.kstack)) := by
  refine ⟨rfl, rfl, rfl, by simp [wakeup, wakeup1], ?_⟩
  intro i hi
  have hp : (wakeup chan k).ptable[i]! =
      (if (k.ptable[i]!).state = PState.RUNNABLE then
        { k.ptable[i]! with
            threads := (k.ptable[i]!).threads.map fun t =>
              if t.state = TState.SLEEPING ∧ t.chan = chan then
                { t with state := TState.RUNNABLE }
              else t }
       else k.ptable[i]!) :=
    getElem!_map_gen _ k.ptable i hi
  rw [hp]
  by_cases hr : (k.ptable[i]!).state = PState.RUNNABLE
  · rw [if_pos hr]
    refine ⟨⟨rfl, rfl, rfl, rfl, rfl, rfl, rfl, rfl, rfl, by simp⟩, ?_⟩
    intro j hj
    have ht : ((k.ptable[i]!).threads.map fun t =>
        if t.state = TState.SLEEPING ∧ t.chan = chan then
          { t with state := TState.RUNNABLE }
        else t)[j]! =
        (if ((k.ptable[i]!).threads[j]!).state = TState.SLEEPING ∧
            ((k.ptable[i]!).threads[j]!).chan = chan then
          { (k.ptable[i]!).threads[j]! with state := TState.RUNNABLE }
         else (k.ptable[i]!).threads[j]!) :=
      getElem!_map_gen _ _ j hj
    show ({ k.ptable[i]! with
            threads := (k.ptable[i]!).threads.map fun t =>
              if t.state = TState.SLEEPING ∧ t.chan = chan then
                { t with state := TState.RUNNABLE }
              else t } : Proc).threads[j]!.state = _ ∧ _
    rw [show ({ k.ptable[i]! with
            threads := (k.ptable[i]!).threads.map fun t =>
              if t.state = TState.SLEEPING ∧ t.chan = chan then
                { t with state := TState.RUNNABLE }
              else t } : Proc).threads = (k.ptable[i]!).threads.map fun t =>
              if t.state = TState.SLEEPING ∧ t.chan = chan then
                { t with state := TState.RUNNABLE }
              else t from rfl]
    rw [ht]
    by_cases hs : ((k.ptable[i]!).threads[j]!).state = TState.SLEEPING ∧
        ((k.ptable[i]!).threads[j]!).chan = chan
    · rw [if_pos hs, if_pos ⟨hr, hs.1, hs.2⟩]
      exact ⟨rfl, rfl, rfl, rfl, rfl⟩
    · rw [if_neg hs, if_neg (fun h => hs ⟨h.2.1, h.2.2⟩)]
      exact ⟨rfl, rfl, rfl, rfl, rfl⟩
  · rw [if_neg hr]
    refine ⟨⟨rfl, rfl, rfl, rfl, rfl, rfl, rfl, rfl, rfl, rfl⟩, ?_⟩
    intro j hj
    rw [if_neg (fun h => hr h.1)]
    exact ⟨rfl, rfl, rfl, rfl, rfl⟩

/-- C8 witness: in `wakeEx`, `wakeup 5` promotes the SLEEPING thread of
the RUNNABLE process 0 on channel 5, leaves its channel-6 sibling
SLEEPING, and leaves the ZOMBIE process 1's matching thread SLEEPING. -/
theorem wakeup_spec_witness :
    ((0 : Nat) < wakeEx.ptable.length ∧ (1 : Nat) < wakeEx.ptable.length) ∧
    (wakeup 5 wakeEx).mlfq = wakeEx.mlfq ∧
    (wakeup 5 wakeEx).ptable[0]!.threads[0]!.state =
      (if wakeEx.ptable[0]!.state = PState.RUNNABLE ∧
          wakeEx.ptable[0]!.threads[0]!.state = TState.SLEEPING ∧
          wakeEx.ptable[0]!.threads[0]!.chan = 5
       then TState.RUNNABLE else wakeEx.ptable[0]!.threads[0]!.state) ∧
    (wakeup 5 wakeEx).ptable[0]!.threads[1]!.state =
      (if wakeEx.ptable[0]!.state = PState.RUNNABLE ∧
          wakeEx.ptable[0]!.threads[1]!.state = TState.SLEEPING ∧
          wakeEx.ptable[0]!.threads[1]!.chan = 5
       then TState.RUNNABLE else wakeEx.ptable[0]!.threads[1]!.state) ∧
    (wakeup 5 wakeEx).ptable[1]!.threads[0]!.state =
      (if wakeEx.ptable[1]!.state = PState.RUNNABLE ∧
          wakeEx.ptable[1]!.threads[0]!.state = TState.SLEEPING ∧
          wakeEx.ptable[1]!.threads[0]!.chan = 5
       then TState.RUNNABLE else wakeEx.ptable[1]!.threads[0]!.state) :=
  ⟨⟨by decide, by decide⟩,
   (wakeup_spec 5 wakeEx).1,
   ((wakeup_spec 5 wakeEx).2.2.2.2 0 (by decide)).2 0 (by decide) |>.1,
   ((wakeup_spec 5 wakeEx).2.2.2.2 0 (by decide)).2 1 (by decide) |>.1,
   ((wakeup_spec 5 wakeEx).2.2.2.2 1 (by decide)).2 0 (by decide) |>.1⟩

theorem tjFindThread_none_iff (ts : List Thread) (tid : Nat) (j : Nat) :
    tjFindThread ts tid j = none ↔ ∀ m, m < ts.length → ts[m]!.tid ≠ tid := by
  induction ts generalizing j with
  | nil => simp [tjFindThread]
  | cons t rest ih =>
    simp only [tjFindThread]
    split
    · rename_i h
      constructor
      · intro hc; cases hc
      · intro hall
        exact absurd (by simpa using h) (hall 0 (by simp))
    · rename_i h
      rw [ih (j + 1)]
      constructor
      · intro hall m hm
        cases m with
        | zero => simpa using h
        | succ m' =>
          rw [List.getElem!_cons_succ]
          exact hall m' (by simpa using hm)
      · intro hall m hm
        have := hall (m + 1) (by simpa using hm)
        rwa [List.getElem!_cons_succ] at this

theorem tjFindThread_some (ts : List Thread) (tid : Nat) (j r : Nat)
    (h : tjFindThread ts tid j = some r) :
    j ≤ r ∧ r - j < ts.length ∧ ts[r - j]!.tid = tid := by
  induction ts generalizing j with
  | nil => simp [tjFindThread] at h
  | cons t rest ih =>
    simp only [tjFindThread] at h
    split at h
    · cases h
      rename_i heq
      refine ⟨le_refl _, by simp, ?_⟩
      rw [Nat.sub_self, List.getElem!_cons_zero]
      exact heq
    · obtain ⟨h1, h2, h3⟩ := ih (j + 1) h
      have hri : r - j = (r - (j + 1)) + 1 := by omega
      rw [hri, List.getElem!_cons_succ]
      exact ⟨by omega, by simp; omega, h3⟩

theorem tjFind_none_iff (pt : List Proc) (tid : Nat) (i : Nat) :
    tjFind pt tid i = none ↔ ∀ m, m < pt.length → pt[m]!.state = PState.RUNNABLE →
      ∀ j, j < pt[m]!.threads.length → pt[m]!.threads[j]!.tid ≠ tid := by
  induction pt generalizing i with
  | nil => simp [tjFind]
  | cons p rest ih =>
    simp only [tjFind]
    have hcons : (∀ m, m < (p :: rest).length → (p :: rest)[m]!.state = PState.RUNNABLE →
        ∀ j, j < (p :: rest)[m]!.threads.length → (p :: rest)[m]!.threads[j]!.tid ≠ tid) ↔
        ((p.state = PState.RUNNABLE → ∀ j, j < p.threads.length → p.threads[j]!.tid ≠ tid) ∧
         (∀ m, m < rest.length → rest[m]!.state = PState.RUNNABLE →
          ∀ j, j < rest[m]!.threads.length → rest[m]!.threads[j]!.tid ≠ tid)) := by
      constructor
      · intro hall
        refine ⟨?_, ?_⟩
        · have := hall 0 (by simp)
          rwa [List.getElem!_cons_zero] at this
        · intro m hm
          have := hall (m + 1) (by simpa using hm)
          rwa [List.getElem!_cons_succ] at this
      · rintro ⟨hh, ht⟩ m hm
        cases m with
        | zero => rw [List.getElem!_cons_zero]; exact hh
        | succ m' =>
          rw [List.getElem!_cons_succ]
          exact ht m' (by simpa using hm)
    rw [hcons]
    split
    · rename_i hr
      cases hscan : tjFindThread p.threads tid 0 with
      | some j =>
        simp only
        constructor
        · intro hc; cases hc
        · rintro ⟨hh, -⟩
          obtain ⟨-, hlt, htid⟩ := tjFindThread_some p.threads tid 0 j hscan
          simp only [Nat.sub_zero] at hlt htid
          exact absurd htid (hh hr j hlt)
      | none =>
        simp only
        rw [ih (i + 1)]
        have hnone : p.state = PState.RUNNABLE →
            ∀ j, j < p.threads.length → p.threads[j]!.tid ≠ tid := by
          intro _ j hj
          exact (tjFindThread_none_iff p.threads tid 0).mp hscan j hj
        tauto
    · rename_i hr
      rw [ih (i + 1)]
      have hvac : p.state = PState.RUNNABLE →
          ∀ j, j < p.threads.length → p.threads[j]!.tid ≠ tid := by
        intro h; exact absurd h hr
      tauto

theorem tjFind_some (pt : List Proc) (tid : Nat) (i a b : Nat)
    (h : tjFind pt tid i = some (a, b)) :
    i ≤ a ∧ a - i < pt.length ∧ pt[a - i]!.state = PState.RUNNABLE ∧
    b < pt[a - i]!.threads.length ∧ pt[a - i]!.threads[b]!.tid = tid := by
  induction pt generalizing i with
  | nil => simp [tjFind] at h
  | cons p rest ih =>
    simp only [tjFind] at h
    split at h
    · rename_i hr
      cases hscan : tjFindThread p.threads tid 0 with
      | some j =>
        rw [hscan] at h
        simp only [Option.some.injEq, Prod.mk.injEq] at h
        obtain ⟨rfl, rfl⟩ := h
        obtain ⟨-, hlt, htid⟩ := tjFindThread_some p.threads tid 0 j hscan
        simp only [Nat.sub_zero] at hlt htid
        rw [Nat.sub_self, List.getElem!_cons_zero]
        exact ⟨le_refl _, by simp, hr, hlt, htid⟩
      | none =>
        rw [hscan] at h
        obtain ⟨h1, h2, h3, h4, h5⟩ := ih (i + 1) h
        have hri : a - i = (a - (i + 1)) + 1 := by omega
        rw [hri, List.getElem!_cons_succ]
        exact ⟨by omega, by simp; omega, h3, h4, h5⟩
    · obtain ⟨h1, h2, h3, h4, h5⟩ := ih (i + 1) h
      have hri : a - i = (a - (i + 1)) + 1 := by omega
      rw [hri, List.getElem!_cons_succ]
      exact ⟨by omega, by simp; omega, h3, h4, h5⟩

/-- C10: `thread_join` locates its target by scanning, in table order,
the threads of exactly the processes whose state is RUNNABLE (the search
does not depend on which process calls it, so another process's thread
can be found and reaped); it reports -1 (notfound) precisely when no
RUNNABLE process owns a thread with the requested tid — in particular
whenever every owner of the tid is UNUSED, EMBRYO or ZOMBIE — and any hit
is a RUNNABLE process's matching thread, reaped when already ZOMBIE. -/
theorem thread_join_search (pt : List Proc) (tid : Nat) :
    (thread_join pt tid = JoinResult.notfound ↔
      ∀ i, i < pt.length → pt[i]!.state = PState.RUNNABLE →
        ∀ j, j < pt[i]!.threads.length → pt[i]!.threads[j]!.tid ≠ tid) ∧
    (∀ a b, tjFind pt tid 0 = some (a, b) →
      a < pt.length ∧ pt[a]!.state = PState.RUNNABLE ∧
      b < pt[a]!.threads.length ∧ pt[a]!.threads[b]!.tid = tid ∧
      (pt[a]!.threads[b]!.state = TState.ZOMBIE →
        ∃ pt', thread_join pt tid = JoinResult.done (pt[a]!.threads[b]!.retval) pt')) := by
  constructor
  · rw [← tjFind_none_iff pt tid 0]
    unfold thread_join
    cases h : tjFind pt tid 0 with
    | none => simp
    | some v =>
      simp only
      constructor
      · intro hc
        split at hc <;> cases hc
      · intro hc; cases hc
  · intro a b h
    obtain ⟨-, h2, h3, h4, h5⟩ := tjFind_some pt tid 0 a b h
    simp only [Nat.sub_zero] at h2 h3 h4 h5
    refine ⟨h2, h3, h4, h5, ?_⟩
    intro hz
    unfold thread_join
    rw [h]
    simp only [hz, if_pos]
    exact ⟨_, rfl⟩

/-- C10 witness: in `joinEx`, tid 9 owned by RUNNABLE process 1 (not the
caller, process 0) is found and reaped with its return value 77, while
tid 11, owned only by the ZOMBIE process 2, is reported unknown. -/
theorem thread_join_search_witness :
    (tjFind joinEx 9 0 = some (1, 0) ∧ joinEx[1]!.threads[0]!.state = TState.ZOMBIE) ∧
    (joinEx[1]!.state = PState.RUNNABLE ∧ joinEx[1]!.threads[0]!.tid = 9 ∧
      ∃ pt', thread_join joinEx 9 = JoinResult.done (joinEx[1]!.threads[0]!.retval) pt') ∧
    thread_join joinEx 11 = JoinResult.notfound := by
  have h9 := (thread_join_search joinEx 9).2 1 0 (by decide)
  refine ⟨⟨by decide, by decide⟩, ⟨h9.2.1, h9.2.2.2.1, h9.2.2.2.2 (by decide)⟩, ?_⟩
  exact (thread_join_search joinEx 11).1.mpr (by decide)

/-- C9 counterexample: in `allocEx` a failing `kalloc` makes `allocproc`
return null with process and thread rolled back to UNUSED, and `fork`
return -1 — but the failed process is still registered in the MLFQ
level-0 queue (`queue[0][0] = some 0` instead of `none`): the rollback
does not deregister it, refuting "leaving no remaining registration of
the failed process in any scheduler structure". -/
theorem allocproc_fail_cex :
    (allocproc 2 allocEx false 777).1 = none ∧
    ((allocproc 2 allocEx false 777).2).ptable[0]!.state = PState.UNUSED ∧
    ((allocproc 2 allocEx false 777).2).ptable[0]!.threads[0]!.state = TState.UNUSED ∧
    (((allocproc 2 allocEx false 777).2).mlfq.queue[0]!)[0]! = some 0 ∧
    fork 2 allocEx 1 false false 777 = (-1, (allocproc 2 allocEx false 777).2) ∧
    (fork 2 allocEx 1 true false 777).1 = -1 ∧
    (((fork 2 allocEx 1 true false 777).2).mlfq.queue[0]!)[0]! = some 0 := by
  refine ⟨by decide, by decide, by decide, by decide, by decide, by decide, by decide⟩

/-- C9 amended: when the kernel-stack or address-space allocation fails
during process creation, `allocproc` returns null and `fork` returns -1,
and the process and thread slots are rolled back to UNUSED — but the
registration made by `mlfq_append` in the MLFQ level-0 queue is left in
place, still pointing at the failed process's slot. -/
theorem allocproc_fork_fail (NTHREAD : Nat) (k : Kernel) (kstk : Nat) (c : Nat) (i j : Nat)
    (hfind : scanUnused k.ptable 0 = some i)
    (hfree : scanFree (k.mlfq.queue[0]!) 0 = some j)
    (hi : i < k.ptable.length)
    (hth : 0 < (k.ptable[i]!).threads.length)
    (hj : j < (k.mlfq.queue[0]!).length)
    (hq0 : 0 < k.mlfq.queue.length) :
    (allocproc NTHREAD k false kstk).1 = none ∧
    ((allocproc NTHREAD k false kstk).2).ptable[i]!.state = PState.UNUSED ∧
    ((allocproc NTHREAD k false kstk).2).ptable[i]!.threads[0]!.state = TState.UNUSED ∧
    (((allocproc NTHREAD k false kstk).2).mlfq.queue[0]!)[j]! = some i ∧
    fork NTHREAD k c false false kstk = (-1, (allocproc NTHREAD k false kstk).2) ∧
    (fork NTHREAD k c true false kstk).1 = -1 ∧
    ((fork NTHREAD k c true false kstk).2).ptable[i]!.state = PState.UNUSED ∧
    ((fork NTHREAD k c true false kstk).2).ptable[i]!.threads[0]!.state = TState.UNUSED ∧
    (((fork NTHREAD k c true false kstk).2).mlfq.queue[0]!)[j]! = some i := by
  unfold fork allocproc mlfq_append
  rw [hfind, hfree]
  simp only
  have hq49 : ((k.mlfq.queue.set 0 ((k.mlfq.queue[0]!).set j (some i)))[0]!)[j]! = some i := by
    rw [getElem!_set_same k.mlfq.queue 0 _ hq0, getElem!_set_same (k.mlfq.queue[0]!) j _ hj]
  refine ⟨trivial, ?_, ?_, hq49, trivial, trivial, ?_, ?_, hq49⟩
  · rw [getElem!_set_same k.ptable i _ hi]
  · rw [getElem!_set_same k.ptable i _ hi]
    simp only
    rw [getElem!_set_same _ 0 _ (by simpa using hth)]
  · rw [getElem!_set_same _ i _ (by simpa using hi)]
  · rw [getElem!_set_same _ i _ (by simpa using hi)]
    simp only
    rw [getElem!_set_same _ 0 _
      (by rw [getElem!_set_same k.ptable i _ hi]; simpa using hth)]

/-- C9 witness for the amended statement, at the concrete state
`allocEx`. -/
theorem allocproc_fork_fail_witness :
    (scanUnused allocEx.ptable 0 = some 0 ∧ scanFree (allocEx.mlfq.queue[0]!) 0 = some 0) ∧
    ((allocproc 2 allocEx false 777).1 = none ∧
     (((allocproc 2 allocEx false 777).2).mlfq.queue[0]!)[0]! = some 0) :=
  ⟨⟨by decide, by decide⟩,
   (allocproc_fork_fail 2 allocEx 777 1 0 0 (by decide) (by decide) (by decide)
      (by decide) (by decide) (by decide)).1,
   (allocproc_fork_fail 2 allocEx 777 1 0 0 (by decide) (by decide) (by decide)
      (by decide) (by decide) (by decide)).2.2.2.1⟩

theorem scanFree_some (l : List (Option Nat)) (i r : Nat) (h : scanFree l i = some r) :
    i ≤ r ∧ r - i < l.length ∧ l[r - i]! = none := by
  induction l generalizing i with
  | nil => simp [scanFree] at h
  | cons a t ih =>
    simp only [scanFree] at h
    split at h
    · cases h
      rename_i heq
      refine ⟨le_refl _, by simp, ?_⟩
      rw [Nat.sub_self, List.getElem!_cons_zero]
      exact heq
    · obtain ⟨h1, h2, h3⟩ := ih (i + 1) h
      have hri : r - i = (r - (i + 1)) + 1 := by omega
      rw [hri, List.getElem!_cons_succ]
      exact ⟨by omega, by simp; omega, h3⟩

theorem usub_eq (a b : Nat) (h1 : b ≤ a) (h2 : a - b < 4294967296) : usub a b = a - b := by
  unfold usub
  omega

/-- C2: for a non-ZOMBIE, non-killed MLFQ process at level L,
`mlfq_update` demotes it to level L+1 (first free slot, elapsed reset,
old slot cleared) and reports NEXT when its elapsed time reached
`expire[L]` and a lower level exists; otherwise it reports NEXT exactly
when the completed slice `ctime - start` reached `quantum[L]`, else KEEP,
the process and queues untouched (only the MLFQ aggregate's stride pass
is updated). -/
theorem mlfq_update_spec (MAXTICKET : Int) (MAXPASS SCALEPASS : ℚ) (m : Mlfq) (p : Proc)
    (pidx ctime L : Nat)
    (hstate : p.state ≠ PState.ZOMBIE)
    (hkill : p.killed = false)
    (hlvl : p.mlfq.level = (L : Int))
    (_hL : L < NMLFQ)
    (hqlen : m.queue.length = NMLFQ)
    (hidx : p.mlfq.index < (m.queue[L]!).length)
    (hstart : p.mlfq.start ≤ ctime)
    (hwrap : ctime - p.mlfq.start < 4294967296) :
    (∀ j, L + 1 < NMLFQ → p.mlfq.elapsed ≥ m.expire[L]! →
      scanFree (m.queue[L + 1]!) 0 = some j →
      ∃ m' p', mlfq_update MAXTICKET MAXPASS SCALEPASS m p pidx ctime =
          some (m', p', MResult.NEXT) ∧
        p'.mlfq.level = ((L + 1 : Nat) : Int) ∧ p'.mlfq.index = j ∧ p'.mlfq.elapsed = 0 ∧
        (m'.queue[L + 1]!)[j]! = some pidx ∧
        (m'.queue[L]!)[p.mlfq.index]! = none) ∧
    (¬(L + 1 < NMLFQ ∧ p.mlfq.elapsed ≥ m.expire[L]!) → ctime - p.mlfq.start ≥ m.quantum[L]! →
      mlfq_update MAXTICKET MAXPASS SCALEPASS m p pidx ctime =
        some ({ m with metasched := stride_update MAXTICKET MAXPASS SCALEPASS m.metasched 0 },
              p, MResult.NEXT)) ∧
    (¬(L + 1 < NMLFQ ∧ p.mlfq.elapsed ≥ m.expire[L]!) → ctime - p.mlfq.start < m.quantum[L]! →
      mlfq_update MAXTICKET MAXPASS SCALEPASS m p pidx ctime =
        some ({ m with metasched := stride_update MAXTICKET MAXPASS SCALEPASS m.metasched 0 },
              p, MResult.KEEP)) := by
  have hzk : ¬(p.state = PState.ZOMBIE ∨ p.killed = true) := by
    rintro (h | h)
    · exact hstate h
    · rw [hkill] at h; cases h
  have htoNat : p.mlfq.level.toNat = L := by rw [hlvl]; simp
  have hm1 : ¬p.mlfq.level = -1 := by rw [hlvl]; omega
  have husub : usub ctime p.mlfq.start = ctime - p.mlfq.start := usub_eq _ _ hstart hwrap
  unfold mlfq_update
  rw [if_neg hzk, if_neg hm1, htoNat]
  simp only
  refine ⟨?_, ?_, ?_⟩
  · intro j h1 h2 hscan
    rw [if_pos ⟨h1, h2⟩]
    unfold mlfq_append
    simp only
    rw [hscan]
    simp only
    obtain ⟨-, hjlen, -⟩ := scanFree_some (m.queue[L + 1]!) 0 j hscan
    simp only [Nat.sub_zero] at hjlen
    refine ⟨_, _, rfl, rfl, rfl, rfl, ?_, ?_⟩
    · rw [getElem!_set_other _ L (L + 1) _ (by omega) (by simp; omega),
        getElem!_set_same m.queue (L + 1) _ (by omega),
        getElem!_set_same _ j _ hjlen]
    · rw [getElem!_set_same _ L _ (by simp; omega),
        getElem!_set_other _ (L + 1) L _ (by omega) (by omega),
        getElem!_set_same _ p.mlfq.index _ hidx]
  · intro hno hge
    rw [if_neg hno, if_neg (by rw [husub]; omega)]
  · intro hno hlt
    rw [if_neg hno, if_pos (by rw [husub]; omega)]

/-- C2 witness: in `updEx` (expire[0] = 20, quantum[0] = 5) process 1 at
level 0 with elapsed 25 is demoted to level 1 with elapsed reset and
reports NEXT; with elapsed 3, slice 2 < 5 keeps (KEEP) and slice 6 ≥ 5
reports NEXT. -/
theorem mlfq_update_spec_witness :
    (∃ m' p', mlfq_update 100 200 100 updEx
        { (default : Proc) with mlfq := { level := 0, index := 0, elapsed := 25, start := 10 } }
        1 33 = some (m', p', MResult.NEXT) ∧
      p'.mlfq.level = ((1 : Nat) : Int) ∧ p'.mlfq.index = 0 ∧ p'.mlfq.elapsed = 0 ∧
      (m'.queue[1]!)[0]! = some 1 ∧ (m'.queue[0]!)[0]! = none) ∧
    mlfq_update 100 200 100 updEx
        { (default : Proc) with mlfq := { level := 0, index := 0, elapsed := 3, start := 10 } }
        1 12 =
      some ({ updEx with metasched := stride_update 100 200 100 updEx.metasched 0 },
            { (default : Proc) with mlfq := { level := 0, index := 0, elapsed := 3, start := 10 } },
            MResult.KEEP) ∧
    mlfq_update 100 200 100 updEx
        { (default : Proc) with mlfq := { level := 0, index := 0, elapsed := 3, start := 10 } }
        1 16 =
      some ({ updEx with metasched := stride_update 100 200 100 updEx.metasched 0 },
            { (default : Proc) with mlfq := { level := 0, index := 0, elapsed := 3, start := 10 } },
            MResult.NEXT) :=
  ⟨(mlfq_update_spec 100 200 100 updEx
      { (default : Proc) with mlfq := { level := 0, index := 0, elapsed := 25, start := 10 } }
      1 33 0 (by decide) (by decide) (by decide) (by decide) (by decide) (by decide)
      (by decide) (by decide)).1 0 (by decide) (by decide) (by decide),
   (mlfq_update_spec 100 200 100 updEx
      { (default : Proc) with mlfq := { level := 0, index := 0, elapsed := 3, start := 10 } }
      1 12 0 (by decide) (by decide) (by decide) (by decide) (by decide) (by decide)
      (by decide) (by decide)).2.2 (by decide) (by decide),
   (mlfq_update_spec 100 200 100 updEx
      { (default : Proc) with mlfq := { level := 0, index := 0, elapsed := 3, start := 10 } }
      1 16 0 (by decide) (by decide) (by decide) (by decide) (by decide) (by decide)
      (by decide) (by decide)).2.1 (by decide) (by decide)⟩

/-- The running-minimum invariant of `stride_next`'s scan loop: starting
from a best slot below `i` that is lexicographically minimal among the
candidates below `i`, after `fuel` further slots the best is a candidate,
lies below `i + fuel`, and is lexicographically minimal among all
candidates below `i + fuel`. -/
theorem stride_next_go_spec (pass : List ℚ) (queue : List SEntry) (pt : List Proc) :
    ∀ fuel i acc,
    (∀ t, 0 < t → t < i + fuel → (pass[t]! = -1 ↔ queue[t]! = SEntry.empty)) →
    0 < i → acc.1 < i → strideCand queue pt acc.1 →
    (∀ t, t < i → strideCand queue pt t → lexBetter pass acc.1 t) →
    ((stride_next_go pass queue pt fuel i acc).1 < i + fuel ∧
     strideCand queue pt (stride_next_go pass queue pt fuel i acc).1 ∧
     (∀ t, t < i + fuel → strideCand queue pt t →
       lexBetter pass (stride_next_go pass queue pt fuel i acc).1 t)) := by
  intro fuel
  induction fuel with
  | zero =>
    intro i acc hact hi hlt hcand hmin
    exact ⟨by simpa using hlt, hcand, fun t ht => hmin t (by simpa using ht)⟩
  | succ fuel ih =>
    intro i acc hact hi hlt hcand hmin
    have hsum : i + 1 + fuel = i + (fuel + 1) := by omega
    simp only [stride_next_go]
    by_cases hcond : pass[i]! ≠ -1 ∧ pass[acc.1]! > pass[i]!
    · rw [if_pos hcond]
      cases hq : queue[i]! with
      | proc pidx =>
        simp only
        cases hr : runnable (pt[pidx]!) with
        | some idxv =>
          simp only
          have hcandi : strideCand queue pt i := by
            right
            simp [slotRunnable, hq, hr]
          have := ih (i + 1) (i, some idxv)
            (fun t h0 hlt' => hact t h0 (by omega))
            (by omega) (by omega) hcandi
            (fun t ht hc => by
              rcases Nat.lt_succ_iff_lt_or_eq.mp ht with ht' | rfl
              · rcases hmin t ht' hc with hlt2 | ⟨heq2, -⟩
                · exact Or.inl (lt_trans hcond.2 hlt2)
                · exact Or.inl (heq2 ▸ hcond.2)
              · exact Or.inr ⟨rfl, le_refl _⟩)
          rw [hsum] at this
          exact this
        | none =>
          simp only
          have := ih (i + 1) acc
            (fun t h0 hlt' => hact t h0 (by omega))
            (by omega) (by omega) hcand
            (fun t ht hc => by
              rcases Nat.lt_succ_iff_lt_or_eq.mp ht with ht' | rfl
              · exact hmin t ht' hc
              · rcases hc with rfl | hc
                · exact absurd rfl (Nat.pos_iff_ne_zero.mp hi)
                · simp [slotRunnable, hq, hr] at hc)
          rw [hsum] at this
          exact this
      | empty =>
        exact absurd ((hact i hi (by omega)).mpr hq) hcond.1
      | mlfqProc =>
        simp only
        have := ih (i + 1) acc
          (fun t h0 hlt' => hact t h0 (by omega))
          (by omega) (by omega) hcand
          (fun t ht hc => by
            rcases Nat.lt_succ_iff_lt_or_eq.mp ht with ht' | rfl
            · exact hmin t ht' hc
            · rcases hc with rfl | hc
              · exact absurd rfl (Nat.pos_iff_ne_zero.mp hi)
              · simp [slotRunnable, hq] at hc)
        rw [hsum] at this
        exact this
    · rw [if_neg hcond]
      push_neg at hcond
      have := ih (i + 1) acc
        (fun t h0 hlt' => hact t h0 (by omega))
        (by omega) (by omega) hcand
        (fun t ht hc => by
          rcases Nat.lt_succ_iff_lt_or_eq.mp ht with ht' | rfl
          · exact hmin t ht' hc
          · rcases hc with rfl | hc
            · exact absurd rfl (Nat.pos_iff_ne_zero.mp hi)
            · rcases eq_or_ne (pass[t]!) (-1) with hm1 | hm1
              · simp [slotRunnable, (hact t hi (by omega)).mp hm1] at hc
              · have hle : pass[acc.1]! ≤ pass[t]! := hcond hm1
                rcases lt_or_eq_of_le hle with hlt2 | heq2
                · exact Or.inl hlt2
                · exact Or.inr ⟨heq2, by omega⟩)
      rw [hsum] at this
      exact this

/-- C1: `stride_next` returns a candidate slot — slot 0 (the MLFQ
aggregate, participating unconditionally) or an active slot holding a
process with a RUNNABLE thread — whose pass value is minimal among all
candidate slots, ties broken in favour of the lower slot index; this
holds under the slot-activity invariant `pass[i] = -1 ↔ queue[i]` empty
for `i > 0`. -/
theorem stride_next_min (n : Nat) (s : Stride) (pt : List Proc)
    (hn : 1 ≤ n)
    (hact : ∀ t, t < n → 0 < t → (s.pass[t]! = -1 ↔ s.queue[t]! = SEntry.empty)) :
    (stride_next n s pt).1 < n ∧
    strideCand s.queue pt (stride_next n s pt).1 ∧
    (∀ t, t < n → strideCand s.queue pt t →
      lexBetter s.pass (stride_next n s pt).1 t) := by
  unfold stride_next
  have hone : 1 + (n - 1) = n := by omega
  have := stride_next_go_spec s.pass s.queue pt (n - 1) 1 (0, none)
    (fun t h0 hlt' => hact t (by omega) h0)
    (by omega) (by omega) (Or.inl rfl)
    (fun t ht hc => by
      have : t = 0 := by omega
      subst this
      exact Or.inr ⟨rfl, le_refl _⟩)
  rw [hone] at this
  exact ⟨this.1, this.2.1, this.2.2⟩

/-- C1 witness: in `nextEx` (passes 5, 3, 7 on slots 0, 1, 2; slots 1
and 2 runnable) the scan returns slot 1, the runnable slot of minimal
pass. -/
theorem stride_next_min_witness :
    ((1 : Nat) ≤ 4 ∧ (stride_next 4 nextEx nextPt).1 = 1) ∧
    strideCand nextEx.queue nextPt (stride_next 4 nextEx nextPt).1 ∧
    lexBetter nextEx.pass (stride_next 4 nextEx nextPt).1 0 ∧
    lexBetter nextEx.pass (stride_next 4 nextEx nextPt).1 2 :=
  ⟨⟨by decide, by decide⟩,
   (stride_next_min 4 nextEx nextPt (by decide) (by decide)).2.1,
   (stride_next_min 4 nextEx nextPt (by decide) (by decide)).2.2 0 (by decide) (Or.inl rfl),
   (stride_next_min 4 nextEx nextPt (by decide) (by decide)).2.2 2 (by decide)
     (Or.inr (by decide))⟩

/-- Circular coverage: every position below `n` is visited by the scan
order `(c + 1 + t) % n`, `t < n`. -/
theorem mod_cover (n c j : Nat) (hn : 0 < n) (hj : j < n) :
    ∃ t, t < n ∧ (c + 1 + t) % n = j := by
  have ha : (c + 1) % n < n := Nat.mod_lt _ hn
  by_cases hja : (c + 1) % n ≤ j
  · refine ⟨j - (c + 1) % n, by omega, ?_⟩
    rw [Nat.add_mod (c + 1)]
    rw [Nat.mod_eq_of_lt (show j - (c + 1) % n < n by omega)]
    rw [show (c + 1) % n + (j - (c + 1) % n) = j by omega]
    exact Nat.mod_eq_of_lt hj
  · refine ⟨n + j - (c + 1) % n, by omega, ?_⟩
    rw [Nat.add_mod (c + 1)]
    rw [Nat.mod_eq_of_lt (show n + j - (c + 1) % n < n by omega)]
    rw [show (c + 1) % n + (n + j - (c + 1) % n) = n + j by omega]
    rw [Nat.add_mod_left]
    exact Nat.mod_eq_of_lt hj

theorem mlfq_scan_go_none_iff (n : Nat) (q : List (Option Nat)) (pt : List Proc) (c : Nat) :
    ∀ fuel t0, (mlfq_scan_go n q pt c fuel t0 = none ↔
      ∀ t, t0 ≤ t → t < t0 + fuel → scanMiss q pt ((c + 1 + t) % n) = true) := by
  intro fuel
  induction fuel with
  | zero =>
    intro t0
    simp only [mlfq_scan_go]
    constructor
    · intro _ t h1 h2
      omega
    · intro _
      trivial
  | succ fuel ih =>
    intro t0
    simp only [mlfq_scan_go]
    cases hq : q[(c + 1 + t0) % n]! with
    | none =>
      simp only
      rw [ih (t0 + 1)]
      constructor
      · intro hall t h1 h2
        rcases eq_or_lt_of_le h1 with rfl | h1'
        · simp [scanMiss, hq]
        · exact hall t (by omega) (by omega)
      · intro hall t h1 h2
        exact hall t (by omega) (by omega)
    | some pidx =>
      simp only
      cases hr : runnable (pt[pidx]!) with
      | some tv =>
        simp only
        constructor
        · intro hc; cases hc
        · intro hall
          have := hall t0 (le_refl _) (by omega)
          simp [scanMiss, hq, hr] at this
      | none =>
        simp only
        rw [ih (t0 + 1)]
        constructor
        · intro hall t h1 h2
          rcases eq_or_lt_of_le h1 with rfl | h1'
          · simp [scanMiss, hq, hr]
          · exact hall t (by omega) (by omega)
        · intro hall t h1 h2
          exact hall t (by omega) (by omega)

theorem mlfq_scan_go_some (n : Nat) (q : List (Option Nat)) (pt : List Proc) (c : Nat) :
    ∀ fuel t0 pidx tv j, mlfq_scan_go n q pt c fuel t0 = some (pidx, tv, j) →
      ∃ t, t0 ≤ t ∧ t < t0 + fuel ∧ j = (c + 1 + t) % n ∧ q[j]! = some pidx ∧
        runnable (pt[pidx]!) = some tv ∧
        ∀ t', t0 ≤ t' → t' < t → scanMiss q pt ((c + 1 + t') % n) = true := by
  intro fuel
  induction fuel with
  | zero =>
    intro t0 pidx tv j h
    simp [mlfq_scan_go] at h
  | succ fuel ih =>
    intro t0 pidx tv j h
    simp only [mlfq_scan_go] at h
    cases hq : q[(c + 1 + t0) % n]! with
    | none =>
      rw [hq] at h
      simp only at h
      obtain ⟨t, h1, h2, h3, h4, h5, h6⟩ := ih (t0 + 1) pidx tv j h
      refine ⟨t, by omega, by omega, h3, h4, h5, ?_⟩
      intro t' ht1 ht2
      rcases eq_or_lt_of_le ht1 with rfl | ht1'
      · simp [scanMiss, hq]
      · exact h6 t' (by omega) ht2
    | some pidx' =>
      rw [hq] at h
      simp only at h
      cases hr : runnable (pt[pidx']!) with
      | some tv' =>
        rw [hr] at h
        simp only [Option.some.injEq, Prod.mk.injEq] at h
        obtain ⟨rfl, rfl, rfl⟩ := h
        exact ⟨t0, le_refl _, by omega, rfl, hq, hr, fun t' h1 h2 => by omega⟩
      | none =>
        rw [hr] at h
        simp only at h
        obtain ⟨t, h1, h2, h3, h4, h5, h6⟩ := ih (t0 + 1) pidx tv j h
        refine ⟨t, by omega, by omega, h3, h4, h5, ?_⟩
        intro t' ht1 ht2
        rcases eq_or_lt_of_le ht1 with rfl | ht1'
        · simp [scanMiss, hq, hr]
        · exact h6 t' (by omega) ht2

theorem mlfq_next_go_none_iff (n : Nat) (pt : List Proc)
    (queues : List (List (Option Nat))) (cursors : List Nat) :
    ∀ fuel l0, (mlfq_next_go n pt queues cursors fuel l0 = none ↔
      ∀ l, l0 ≤ l → l < l0 + fuel →
        mlfq_scan_go n (queues[l]!) pt (cursors[l]!) n 0 = none) := by
  intro fuel
  induction fuel with
  | zero =>
    intro l0
    simp only [mlfq_next_go]
    constructor
    · intro _ l h1 h2
      omega
    · intro _
      trivial
  | succ fuel ih =>
    intro l0
    simp only [mlfq_next_go]
    cases hs : mlfq_scan_go n (queues[l0]!) pt (cursors[l0]!) n 0 with
    | some v =>
      simp only
      constructor
      · intro hc
        obtain ⟨a, b, c'⟩ := v
        cases hc
      · intro hall
        rw [hall l0 (le_refl _) (by omega)] at hs
        cases hs
    | none =>
      simp only
      rw [ih (l0 + 1)]
      constructor
      · intro hall l h1 h2
        rcases eq_or_lt_of_le h1 with rfl | h1'
        · exact hs
        · exact hall l (by omega) (by omega)
      · intro hall l h1 h2
        exact hall l (by omega) (by omega)

theorem mlfq_next_go_some (n : Nat) (pt : List Proc)
    (queues : List (List (Option Nat))) (cursors : List Nat) :
    ∀ fuel l0 lvl j pidx tv,
      mlfq_next_go n pt queues cursors fuel l0 = some (lvl, j, pidx, tv) →
      l0 ≤ lvl ∧ lvl < l0 + fuel ∧
      mlfq_scan_go n (queues[lvl]!) pt (cursors[lvl]!) n 0 = some (pidx, tv, j) ∧
      ∀ l, l0 ≤ l → l < lvl → mlfq_scan_go n (queues[l]!) pt (cursors[l]!) n 0 = none := by
  intro fuel
  induction fuel with
  | zero =>
    intro l0 lvl j pidx tv h
    simp [mlfq_next_go] at h
  | succ fuel ih =>
    intro l0 lvl j pidx tv h
    simp only [mlfq_next_go] at h
    cases hs : mlfq_scan_go n (queues[l0]!) pt (cursors[l0]!) n 0 with
    | some v =>
      rw [hs] at h
      obtain ⟨a, b, c'⟩ := v
      simp only [Option.some.injEq, Prod.mk.injEq] at h
      obtain ⟨rfl, rfl, rfl, rfl⟩ := h
      exact ⟨le_refl _, by omega, hs, fun l h1 h2 => by omega⟩
    | none =>
      rw [hs] at h
      simp only at h
      obtain ⟨h1, h2, h3, h4⟩ := ih (l0 + 1) lvl j pidx tv h
      refine ⟨by omega, by omega, h3, ?_⟩
      intro l hl1 hl2
      rcases eq_or_lt_of_le hl1 with rfl | hl1'
      · exact hs
      · exact h4 l (by omega) hl2

/-- C6: `mlfq_next` scans level 0, then 1, then 2; within a level it
probes the positions `(cursor + 1 + t) % n` in order (the circular scan
from the saved cursor), returns the first process with a RUNNABLE thread
together with that thread's index, stores the chosen position back into
the level's cursor (so the next scan starts past it), and returns null
exactly when no process in any level has a RUNNABLE thread. -/
theorem mlfq_next_spec (n : Nat) (m : Mlfq) (pt : List Proc) (hn : 0 < n) :
    ((mlfq_next n m pt).1 = none ↔
      ∀ l, l < NMLFQ → ∀ j, j < n → scanMiss (m.queue[l]!) pt j = true) ∧
    ((mlfq_next n m pt).1 = none → (mlfq_next n m pt).2 = m) ∧
    (∀ pidx tv, (mlfq_next n m pt).1 = some (pidx, tv) →
      ∃ l, l < NMLFQ ∧ ∃ t, t < n ∧ ∃ j, j = ((m.iterstate[l]!) + 1 + t) % n ∧
        ((m.queue[l]!)[j]! = some pidx ∧ runnable (pt[pidx]!) = some tv) ∧
        (∀ t', t' < t → scanMiss (m.queue[l]!) pt (((m.iterstate[l]!) + 1 + t') % n) = true) ∧
        (∀ l', l' < l → ∀ j', j' < n → scanMiss (m.queue[l']!) pt j' = true) ∧
        (mlfq_next n m pt).2 = { m with iterstate := m.iterstate.set l j }) := by
  have hlevel_none : ∀ l : Nat,
      mlfq_scan_go n (m.queue[l]!) pt (m.iterstate[l]!) n 0 = none ↔
      ∀ j, j < n → scanMiss (m.queue[l]!) pt j = true := by
    intro l
    rw [mlfq_scan_go_none_iff n (m.queue[l]!) pt (m.iterstate[l]!) n 0]
    constructor
    · intro hall j hj
      obtain ⟨t, ht, hmod⟩ := mod_cover n (m.iterstate[l]!) j hn hj
      rw [← hmod]
      exact hall t (by omega) (by omega)
    · intro hall t h1 h2
      exact hall (((m.iterstate[l]!) + 1 + t) % n) (Nat.mod_lt ((m.iterstate[l]!) + 1 + t) hn)
  constructor
  · unfold mlfq_next
    cases hgo : mlfq_next_go n pt m.queue m.iterstate NMLFQ 0 with
    | some v =>
      obtain ⟨lvl, j, pidx, tv⟩ := v
      simp only
      constructor
      · intro hc; cases hc
      · intro hall
        obtain ⟨-, hlt, hscan, -⟩ :=
          mlfq_next_go_some n pt m.queue m.iterstate NMLFQ 0 lvl j pidx tv hgo
        rw [(hlevel_none lvl).mpr (hall lvl (by omega))] at hscan
        cases hscan
    | none =>
      simp only
      rw [mlfq_next_go_none_iff] at hgo
      exact iff_of_true trivial (fun l hl => (hlevel_none l).mp (hgo l (by omega) (by omega)))
  constructor
  · unfold mlfq_next
    cases hgo : mlfq_next_go n pt m.queue m.iterstate NMLFQ 0 with
    | some v =>
      obtain ⟨lvl, j, pidx, tv⟩ := v
      simp only
      intro hc; cases hc
    | none =>
      simp only
      intro _; trivial
  · intro pidx tv h
    unfold mlfq_next at h ⊢
    cases hgo : mlfq_next_go n pt m.queue m.iterstate NMLFQ 0 with
    | none =>
      rw [hgo] at h
      cases h
    | some v =>
      obtain ⟨lvl, j, pidx', tv'⟩ := v
      rw [hgo] at h
      simp only [Option.some.injEq, Prod.mk.injEq] at h
      obtain ⟨rfl, rfl⟩ := h
      obtain ⟨-, hlt, hscan, hlow⟩ :=
        mlfq_next_go_some n pt m.queue m.iterstate NMLFQ 0 lvl j pidx' tv' hgo
      obtain ⟨t, -, ht2, hj, hq, hr, hmiss⟩ :=
        mlfq_scan_go_some n (m.queue[lvl]!) pt (m.iterstate[lvl]!) n 0 pidx' tv' j hscan
      refine ⟨lvl, by omega, t, by omega, j, hj, ⟨hq, hr⟩, ?_, ?_, ?_⟩
      · intro t' ht'
        exact hmiss t' (by omega) ht'
      · intro l' hl' j' hj'
        exact (hlevel_none l').mp (hlow l' (by omega) hl') j' hj'
      · rfl

/-- C6 witness: in `updEx` with process 1 in level-0 slot 0 and the
cursor at 0, `mlfq_next` wraps around and returns process 1 with thread
index 0, updating the cursor; on the empty `mlfq_init` state it returns
null and leaves the state unchanged. -/
theorem mlfq_next_spec_witness :
    ((0 : Nat) < 4 ∧ (mlfq_next 4 updEx nextPt).1 = some (1, 0)) ∧
    (∃ l, l < NMLFQ ∧ ∃ t, t < 4 ∧ ∃ j, j = ((updEx.iterstate[l]!) + 1 + t) % 4 ∧
      ((updEx.queue[l]!)[j]! = some 1 ∧ runnable (nextPt[1]!) = some 0) ∧
      (∀ t', t' < t →
        scanMiss (updEx.queue[l]!) nextPt (((updEx.iterstate[l]!) + 1 + t') % 4) = true) ∧
      (∀ l', l' < l → ∀ j', j' < 4 → scanMiss (updEx.queue[l']!) nextPt j' = true) ∧
      (mlfq_next 4 updEx nextPt).2 = { updEx with iterstate := updEx.iterstate.set l j }) ∧
    ((mlfq_next 4 (mlfq_init 4 100) nextPt).1 = none ∧
     (mlfq_next 4 (mlfq_init 4 100) nextPt).2 = mlfq_init 4 100) := by
  refine ⟨⟨by decide, by decide⟩,
    (mlfq_next_spec 4 updEx nextPt (by decide)).2.2 1 0 (by decide), ?_, ?_⟩
  · exact (mlfq_next_spec 4 (mlfq_init 4 100) nextPt (by decide)).1.mpr (by decide)
  · exact (mlfq_next_spec 4 (mlfq_init 4 100) nextPt (by decide)).2.1
      ((mlfq_next_spec 4 (mlfq_init 4 100) nextPt (by decide)).1.mpr (by decide))

/-- C4 witness: admitting a third participant into `seedEx` (active
passes 5 and 3) seeds its pass with 3, the minimum. -/
theorem stride_append_seeds_minpass_witness :
    stride_append 80 seedEx 2 10 = some (seedEx2, 2) ∧
    seedEx2.pass[2]! ≤ seedEx.pass[0]! ∧ seedEx2.pass[2]! ≤ seedEx.pass[1]! :=
  ⟨by decide,
   (stride_append_seeds_minpass 80 seedEx 2 10 seedEx2 2 (by decide) (by decide) (by decide)).1,
   (stride_append_seeds_minpass 80 seedEx 2 10 seedEx2 2 (by decide) (by decide)
     (by decide)).2.1 1 (by decide) (by decide) (by decide)⟩

end Sched
